import Mathlib

/-!
Verification of the `claude-swap` account switcher core against its
natural-language specification.

The development shallow-embeds the Python source (`src/claude_swap/switcher.py`,
`src/claude_swap/models.py`) into Lean:

* JSON documents are modelled at the level of their parse trees (`JVal`);
  file contents that the code treats as raw text are modelled by `TextDoc`,
  which records exactly the distinctions the code makes (empty text, text
  that parses to a JSON object, text that fails to parse).
* The Linux/WSL storage backend is modelled (file-based credential backups);
  the macOS keyring backend differs only in the storage medium.
* Python `str(n)` / `int(s)` on account numbers are modelled by the
  executable pair `intStr` / `pyInt?` defined below (ordinary decimal
  notation, proved to round-trip).
* Exceptions are modelled by explicit result values; an uncaught
  `TypeError`/`KeyError`/`AttributeError` arising from a malformed registry
  document is modelled by `Err.crash`.
* Timestamps are modelled by an uninterpreted `now : String` field of the
  world; logging and terminal output are not modelled.
-/

namespace ClaudeSwap

/-! ## Decimal strings: model of Python `str(n)` and `int(s)` -/

/-- The decimal digit character for `n < 10`. -/
def digitChar (n : Nat) : Char :=
  match n with
  | 0 => '0' | 1 => '1' | 2 => '2' | 3 => '3' | 4 => '4'
  | 5 => '5' | 6 => '6' | 7 => '7' | 8 => '8' | _ => '9'

def isDigitChar (c : Char) : Bool :=
  48 ≤ c.toNat && c.toNat ≤ 57

def charVal (c : Char) : Nat := c.toNat - 48

/-- Fueled digit expansion (fuel keeps the recursion structural so that the
kernel can evaluate it). -/
def natToCharsAux : Nat → Nat → List Char
  | 0, _ => []
  | fuel + 1, n =>
    if n < 10 then [digitChar n]
    else natToCharsAux fuel (n / 10) ++ [digitChar (n % 10)]

/-- Decimal digit list of a natural number. -/
def natToChars (n : Nat) : List Char := natToCharsAux (n + 1) n

/-- Value of a digit list, most significant digit first. -/
def charsToNat (cs : List Char) : Nat :=
  cs.foldl (fun a c => 10 * a + charVal c) 0

/-- Model of Python `str(i)` for an integer `i`. -/
def intStr (i : Int) : String :=
  if i < 0 then ⟨'-' :: natToChars i.natAbs⟩ else ⟨natToChars i.toNat⟩

/-- Model of Python `s.isdigit()` (restricted to ASCII digits, which is all
the code ever produces). -/
def strIsDigit (s : String) : Bool :=
  !s.toList.isEmpty && s.toList.all isDigitChar

/-- Head/tail worker for `pyInt?`. -/
def pyIntCore (c : Char) (rest : List Char) : Option Int :=
  if c = '-' then
    if !rest.isEmpty && rest.all isDigitChar then
      some (-(charsToNat rest : Int))
    else none
  else
    if (c :: rest).all isDigitChar then
      some ((charsToNat (c :: rest) : Int))
    else none

/-- Model of Python `int(s)` as used on account-number strings: an optional
minus sign followed by decimal digits; `none` models the `ValueError`. -/
def pyInt? (s : String) : Option Int :=
  match s.toList with
  | [] => none
  | c :: rest => pyIntCore c rest

/-- Model of Python `str(x)` for `x : Optional[int]` (`str(None) = "None"`). -/
def strOfOptInt : Option Int → String
  | none => "None"
  | some i => intStr i

/-! ### Round-trip facts about the decimal model -/

theorem natToCharsAux_ne_nil (fuel n : Nat) (h : n < fuel) :
    natToCharsAux fuel n ≠ [] := by
  induction fuel generalizing n with
  | zero => omega
  | succ f ih =>
    simp only [natToCharsAux]
    split
    · simp
    · intro hc
      rcases List.append_eq_nil.mp hc with ⟨_, h2⟩
      exact absurd h2 (by simp)

theorem isDigitChar_digitChar (n : Nat) : isDigitChar (digitChar n) = true := by
  match n with
  | 0 | 1 | 2 | 3 | 4 | 5 | 6 | 7 | 8 => decide
  | m + 9 => simp [digitChar, isDigitChar]

theorem charVal_digitChar (n : Nat) (h : n < 10) : charVal (digitChar n) = n := by
  interval_cases n <;> decide

theorem natToCharsAux_all_digits (fuel n : Nat) (h : n < fuel) :
    (natToCharsAux fuel n).all isDigitChar = true := by
  induction fuel generalizing n with
  | zero => omega
  | succ f ih =>
    simp only [natToCharsAux]
    split
    · simp [isDigitChar_digitChar]
    · rename_i h10
      have hlt : n / 10 < f := by omega
      simp only [List.all_append]
      rw [ih _ hlt]
      simp [isDigitChar_digitChar]

theorem charsToNat_append_digit (cs : List Char) (c : Char) :
    charsToNat (cs ++ [c]) = 10 * charsToNat cs + charVal c := by
  simp [charsToNat, List.foldl_append]

theorem charsToNat_natToCharsAux (fuel n : Nat) (h : n < fuel) :
    charsToNat (natToCharsAux fuel n) = n := by
  induction fuel generalizing n with
  | zero => omega
  | succ f ih =>
    simp only [natToCharsAux]
    split
    · rename_i h10
      simp [charsToNat, charVal_digitChar n h10]
    · rename_i h10
      have hlt : n / 10 < f := by omega
      rw [charsToNat_append_digit, ih _ hlt, charVal_digitChar _ (by omega)]
      omega

theorem charsToNat_natToChars (n : Nat) : charsToNat (natToChars n) = n :=
  charsToNat_natToCharsAux (n + 1) n (by omega)

theorem natToChars_all_digits (n : Nat) :
    (natToChars n).all isDigitChar = true :=
  natToCharsAux_all_digits (n + 1) n (by omega)

theorem natToChars_ne_nil (n : Nat) : natToChars n ≠ [] :=
  natToCharsAux_ne_nil (n + 1) n (by omega)

theorem toList_mk (cs : List Char) : (String.mk cs).toList = cs := rfl

/-- Python `int(str(i)) = i`. -/
theorem pyInt_intStr (i : Int) : pyInt? (intStr i) = some i := by
  by_cases hneg : i < 0
  · have hval := charsToNat_natToChars i.natAbs
    have hne := natToChars_ne_nil i.natAbs
    have hall := natToChars_all_digits i.natAbs
    have h1 : pyInt? (intStr i) = pyIntCore '-' (natToChars i.natAbs) := by
      simp only [intStr, if_pos hneg]
      rfl
    rw [h1]
    simp only [pyIntCore, if_true]
    have hcond : (!(natToChars i.natAbs).isEmpty
        && (natToChars i.natAbs).all isDigitChar) = true := by
      rw [hall, Bool.and_true]
      cases h2 : natToChars i.natAbs with
      | nil => exact absurd h2 hne
      | cons a t => rfl
    rw [if_pos hcond, hval]
    congr 1
    omega
  · have hval := charsToNat_natToChars i.toNat
    have hne := natToChars_ne_nil i.toNat
    have hall := natToChars_all_digits i.toNat
    match hcs : natToChars i.toNat with
    | [] => exact absurd hcs hne
    | c :: rest =>
      rw [hcs] at hall hval
      have h1 : pyInt? (intStr i) = pyIntCore c rest := by
        simp only [intStr, if_neg hneg, hcs]
        rfl
      rw [h1]
      have hcne : ¬ (c = '-') := by
        intro he
        rw [List.all_cons, he] at hall
        simp [isDigitChar] at hall
      simp only [pyIntCore, if_neg hcne, if_pos hall, hval]
      congr 1
      omega

theorem intStr_injective : Function.Injective intStr := by
  intro a b h
  have ha := pyInt_intStr a
  have hb := pyInt_intStr b
  rw [h, hb] at ha
  exact (Option.some.injEq _ _).mp ha.symm

/-! ## Association lists: model of Python `dict` (insertion-ordered) -/

/-- Model of `d[k]` / `d.get(k)`: first binding for `k`. -/
def assocGet {α : Type} (l : List (String × α)) (k : String) : Option α :=
  match l with
  | [] => none
  | (k0, v) :: t => if k0 = k then some v else assocGet t k

/-- Model of `d[k] = v`: replace in place, or append a fresh key. -/
def assocSet {α : Type} (l : List (String × α)) (k : String) (v : α) :
    List (String × α) :=
  match l with
  | [] => [(k, v)]
  | (k0, v0) :: t => if k0 = k then (k0, v) :: t else (k0, v0) :: assocSet t k v

/-- Model of `del d[k]` (also of `Path.unlink` on a name-keyed store). -/
def assocErase {α : Type} (l : List (String × α)) (k : String) :
    List (String × α) :=
  match l with
  | [] => []
  | (k0, v0) :: t => if k0 = k then t else (k0, v0) :: assocErase t k

theorem assocGet_assocSet_same {α : Type} (l : List (String × α)) (k : String)
    (v : α) : assocGet (assocSet l k v) k = some v := by
  induction l with
  | nil => simp [assocGet, assocSet]
  | cons h t ih =>
    obtain ⟨k0, v0⟩ := h
    by_cases he : k0 = k
    · simp [assocGet, assocSet, he]
    · simp [assocGet, assocSet, he, ih]

theorem assocGet_assocSet_other {α : Type} (l : List (String × α))
    (k k' : String) (v : α) (hne : k' ≠ k) :
    assocGet (assocSet l k v) k' = assocGet l k' := by
  have hne' : ¬ (k = k') := fun h => hne h.symm
  induction l with
  | nil => simp [assocGet, assocSet, hne']
  | cons h t ih =>
    obtain ⟨k0, v0⟩ := h
    by_cases he : k0 = k
    · subst he
      simp [assocGet, assocSet, hne']
    · simp only [assocSet, if_neg he, assocGet]
      by_cases he' : k0 = k'
      · simp [he']
      · simp [he', ih]

theorem assocSet_fresh {α : Type} (l : List (String × α)) (k : String) (v : α)
    (h : k ∉ l.map Prod.fst) : assocSet l k v = l ++ [(k, v)] := by
  induction l with
  | nil => simp [assocSet]
  | cons hd t ih =>
    obtain ⟨k0, v0⟩ := hd
    simp only [List.map_cons, List.mem_cons] at h
    push_neg at h
    have hne : ¬ (k0 = k) := fun he => h.1 he.symm
    simp only [assocSet, if_neg hne]
    rw [ih h.2]
    simp

theorem assocGet_eq_none_iff {α : Type} (l : List (String × α)) (k : String) :
    assocGet l k = none ↔ k ∉ l.map Prod.fst := by
  induction l with
  | nil => simp [assocGet]
  | cons hd t ih =>
    obtain ⟨k0, v0⟩ := hd
    by_cases he : k0 = k
    · simp [assocGet, he]
    · simp [assocGet, he, ih, Ne.symm he]

theorem map_fst_assocErase {α : Type} (l : List (String × α)) (k : String) :
    (assocErase l k).map Prod.fst = (l.map Prod.fst).erase k := by
  induction l with
  | nil => simp [assocErase]
  | cons hd t ih =>
    obtain ⟨k0, v0⟩ := hd
    by_cases he : k0 = k
    · simp [assocErase, he, List.erase_cons_head]
    · rw [List.map_cons, List.erase_cons_tail]
      · simp [assocErase, he, ih]
      · simp [he]

theorem assocErase_sublist {α : Type} (l : List (String × α)) (k : String) :
    (assocErase l k).Sublist l := by
  induction l with
  | nil => simp [assocErase]
  | cons hd t ih =>
    obtain ⟨k0, v0⟩ := hd
    by_cases he : k0 = k
    · simp only [assocErase, if_pos he]
      exact (List.sublist_cons_self _ _)
    · simp only [assocErase, if_neg he]
      exact ih.cons₂ _

/-! ## JSON documents and raw text files -/

/-- Parse trees of JSON values (the fragment the tool reads and writes:
strings, integers, booleans, null, arrays, objects). -/
inductive JVal where
  | jnull : JVal
  | jbool : Bool → JVal
  | jnum : Int → JVal
  | jstr : String → JVal
  | jarr : List JVal → JVal
  | jobj : List (String × JVal) → JVal

/-- Python truthiness of a JSON value (`if not x`). -/
def jTruthy : JVal → Bool
  | .jnull => false
  | .jbool b => b
  | .jnum n => n != 0
  | .jstr s => !s.isEmpty
  | .jarr xs => !xs.isEmpty
  | .jobj f => !f.isEmpty

/-- A raw text file content, recorded at the granularity the code
distinguishes: the empty string, text parsing to a JSON object with the
given fields, or non-empty text that fails to parse.  (Top-level JSON
documents handled by the tool are always objects.) -/
inductive TextDoc where
  | empty : TextDoc
  | jsonDoc : List (String × JVal) → TextDoc
  | invalid : TextDoc

/-- Python truthiness of raw text (`if not target_config`). -/
def textTruthy : TextDoc → Bool
  | .empty => false
  | _ => true

/-! ## Registry data model (`sequence.json`) -/

/-- A managed account entry (value of `data["accounts"][num]`). -/
structure Account where
  email : String
  uuid : String
  added : String
deriving DecidableEq

/-- The registry document, as created and maintained by the tool:
`activeAccountNumber`, `lastUpdated`, `sequence` (rotation order) and
`accounts` (keyed by decimal account-number strings). -/
structure SeqData where
  activeAccountNumber : Option Int
  lastUpdated : String
  sequence : List Int
  accounts : List (String × Account)
deriving DecidableEq

/-- State of the `sequence.json` file: absent, present but unparseable, or a
well-formed registry document. -/
inductive SeqFile where
  | absent : SeqFile
  | corrupt : SeqFile
  | doc : SeqData → SeqFile
deriving DecidableEq

/-- Model of `_read_json(self.sequence_file)`: `None` on a missing or
corrupt file. -/
def readJsonSeq : SeqFile → Option SeqData
  | .doc d => some d
  | _ => none

/-- State of the live credentials file `~/.claude/.credentials.json`:
absent, readable with content `s`, or unreadable (read raises). -/
inductive CredFile where
  | absent : CredFile
  | stored : String → CredFile
  | unreadable : CredFile
deriving DecidableEq

/-- Content of a per-account backup credential file
(`.creds-{num}-{email}.enc`): a valid base64 encoding of a secret, or
corrupt/unreadable content whose decode fails. -/
inductive CredBlob where
  | b64 : String → CredBlob
  | corrupt : CredBlob
deriving DecidableEq

/-- The world state the switcher operates on.  We model the Linux/WSL
backend: per-account credentials live in files under
`~/.claude-swap-backup/credentials/`, per-account configs under
`.../configs/`, both keyed by `"{num}-{email}"` exactly as the file names
are.  `now` models `get_timestamp()`. -/
structure World where
  seqFile : SeqFile
  liveCreds : CredFile
  liveConfig : Option TextDoc
  credBackups : List (String × CredBlob)
  configBackups : List (String × TextDoc)
  now : String

/-- The `-`-joined key used in backup file names. -/
def slotKey (num email : String) : String := num ++ "-" ++ email

/-! ## Switcher helper operations (from `switcher.py`) -/

/-- Model of `data.get("oauthAccount", {}).get(key, "")` for string-valued
fields.  (A non-object `oauthAccount` or a non-string field value would
crash / misbehave in Python; such adversarial live documents are outside
this model and collapse to the `""` default.) -/
def oauthField (fields : List (String × JVal)) (key : String) : String :=
  match assocGet fields "oauthAccount" with
  | some (.jobj oa) =>
    match assocGet oa key with
    | some (.jstr s) => s
    | _ => ""
  | _ => ""

/-- Model of `_get_current_account`: email from the live configuration
document, `None` when the file is missing, unparseable, falsy, or carries
no email. -/
def getCurrentAccount (w : World) : Option String :=
  match w.liveConfig with
  | some (.jsonDoc fields) =>
    if fields.isEmpty then none
    else
      let e := oauthField fields "emailAddress"
      if e.isEmpty then none else some e
  | _ => none

/-- Model of `_account_exists`. -/
def accountExists (w : World) (email : String) : Bool :=
  match readJsonSeq w.seqFile with
  | none => false
  | some d => d.accounts.any (fun kv => kv.2.email == email)

/-- Model of `_resolve_account_identifier`. -/
def resolveIdentifier (w : World) (identifier : String) : Option String :=
  if strIsDigit identifier then some identifier
  else
    match readJsonSeq w.seqFile with
    | none => none
    | some d =>
      (d.accounts.find? (fun kv => kv.2.email == identifier)).map Prod.fst

/-- Model of `[int(k) for k in data["accounts"].keys()]`; `none` models the
`ValueError` from a non-numeric key. -/
def intsOfKeys : List String → Option (List Int)
  | [] => some []
  | k :: t =>
    match pyInt? k, intsOfKeys t with
    | some n, some ns => some (n :: ns)
    | _, _ => none

/-- Python `max(l, default=d)`. -/
def listMaxD (l : List Int) (d : Int) : Int :=
  match l with
  | [] => d
  | x :: xs => xs.foldl max x

/-- Model of `_get_next_account_number`. -/
def getNextAccountNumber (w : World) : Option Int :=
  match readJsonSeq w.seqFile with
  | none => some 1
  | some d =>
    if d.accounts.isEmpty then some 1
    else
      match intsOfKeys (d.accounts.map Prod.fst) with
      | none => none
      | some nums => some (listMaxD nums 0 + 1)

/-- Model of `_read_credentials` (Linux branch): content of the live
credentials file, `""` when absent, `None` (read error) when unreadable. -/
def readCredentials (w : World) : Option String :=
  match w.liveCreds with
  | .absent => some ""
  | .stored s => some s
  | .unreadable => none

/-- Model of `_write_credentials` (Linux branch). -/
def writeCredentials (w : World) (s : String) : World :=
  { w with liveCreds := .stored s }

/-- Model of `_read_account_credentials` (Linux branch): decode of the
backup blob; missing file or failed decode both yield `""`. -/
def readAccountCredentials (w : World) (num email : String) : String :=
  match assocGet w.credBackups (slotKey num email) with
  | some (.b64 s) => s
  | some .corrupt => ""
  | none => ""

/-- Model of `_write_account_credentials` (Linux branch). -/
def writeAccountCredentials (w : World) (num email s : String) : World :=
  { w with credBackups := assocSet w.credBackups (slotKey num email) (.b64 s) }

/-- Model of `_delete_account_credentials` (Linux branch). -/
def deleteAccountCredentials (w : World) (num email : String) : World :=
  { w with credBackups := assocErase w.credBackups (slotKey num email) }

/-- Model of `_read_account_config`: raw backup text, `""` when missing. -/
def readAccountConfig (w : World) (num email : String) : TextDoc :=
  match assocGet w.configBackups (slotKey num email) with
  | some t => t
  | none => .empty

/-- Model of `_write_account_config`. -/
def writeAccountConfig (w : World) (num email : String) (t : TextDoc) : World :=
  { w with configBackups := assocSet w.configBackups (slotKey num email) t }

/-- Model of the config-backup `unlink` in `remove_account`. -/
def deleteAccountConfig (w : World) (num email : String) : World :=
  { w with configBackups := assocErase w.configBackups (slotKey num email) }

/-- Model of `_init_sequence_file`. -/
def initSequenceFile (w : World) : World :=
  match w.seqFile with
  | .absent =>
    { w with seqFile := SeqFile.doc ⟨none, w.now, [], []⟩ }
  | _ => w

/-! ## Email validation (model of `_validate_email`) -/

/-- Characters allowed in the regex class before the `@`. -/
def isLocalChar (c : Char) : Bool :=
  c.isAlphanum || c = '.' || c = '_' || c = '%' || c = '+' || c = '-'

/-- Characters allowed in the regex class of the domain prefix. -/
def isDomainChar (c : Char) : Bool :=
  c.isAlphanum || c = '.' || c = '-'

/-- Split a character list at every occurrence of `sep`. -/
def splitOnChar (sep : Char) : List Char → List (List Char)
  | [] => [[]]
  | c :: t =>
    let r := splitOnChar sep t
    if c = sep then [] :: r
    else
      match r with
      | [] => [[c]]
      | h :: t2 => (c :: h) :: t2

/-- Join character lists with `'.'` separators (inverse view of the split
of the domain at dots, used to talk about the part before the final dot). -/
def joinDots : List (List Char) → List Char
  | [] => []
  | [p] => p
  | p :: t => p ++ '.' :: joinDots t

/-- Model of `_validate_email`'s regex
`^[a-zA-Z0-9._%+-]+@[a-zA-Z0-9.-]+\.[a-zA-Z]{2,}$`: exactly one `@`; a
non-empty local part over the first class; a domain that is a non-empty
prefix over the second class, a final dot, and an all-alphabetic TLD of
length at least two.  (The regex-`$` subtlety of accepting one trailing
newline is not modelled.) -/
def validEmail (s : String) : Bool :=
  match splitOnChar '@' s.toList with
  | [lp, dom] =>
    !lp.isEmpty && lp.all isLocalChar &&
      (match splitOnChar '.' dom with
       | [] => false
       | [_] => false
       | parts =>
         let tld := parts.getLastD []
         let pre := joinDots parts.dropLast
         !pre.isEmpty && pre.all isDomainChar &&
           decide (2 ≤ tld.length) && tld.all Char.isAlpha)
  | _ => false

/-! ## Operation results -/

/-- Exceptions the modelled operations can surface.  `crash` stands for an
uncaught `TypeError`/`KeyError`/`AttributeError` on a malformed registry
document. -/
inductive Err where
  | configError : Err
  | credentialReadError : Err
  | validationError : Err
  | accountNotFound : Err
  | switchNoCurrent : Err
  | switchMissingBackup : Err
  | switchInvalidOauth : Err
  | switchRolledBack : Err
  | switchRollbackFailed : Err
  | crash : Err
deriving DecidableEq

inductive AddResult where
  | added : Int → AddResult
  | alreadyManaged : AddResult
  | err : Err → AddResult
deriving DecidableEq

inductive RemoveResult where
  | removed : RemoveResult
  | cancelled : RemoveResult
  | err : Err → RemoveResult
deriving DecidableEq

inductive SwitchResult where
  | switched : SwitchResult
  | err : Err → SwitchResult
deriving DecidableEq

inductive RotateResult where
  | switched : RotateResult
  | autoAdded : Option Int → RotateResult
  | onlyOne : RotateResult
  | err : Err → RotateResult
deriving DecidableEq

/-! ## `add_account` -/

/-- Model of `add_account`: back up the live identity into a fresh slot and
make it active.  Mirrors the source's statement order; every early exit
returns the world as mutated so far. -/
def addAccount (w0 : World) : World × AddResult :=
  let w := initSequenceFile w0
  match getCurrentAccount w with
  | none => (w, .err .configError)
  | some currentEmail =>
    if accountExists w currentEmail then (w, .alreadyManaged)
    else
      match getNextAccountNumber w with
      | none => (w, .err .crash)
      | some n =>
        let accountNum := intStr n
        match readCredentials w with
        | none => (w, .err .credentialReadError)
        | some currentCreds =>
          if currentCreds.isEmpty then (w, .err .credentialReadError)
          else
            match w.liveConfig with
            | none => (w, .err .configError)
            | some currentConfig =>
              let uuid :=
                match currentConfig with
                | .jsonDoc fields => oauthField fields "accountUuid"
                | _ => ""
              let w1 := writeAccountCredentials w accountNum currentEmail
                currentCreds
              let w2 := writeAccountConfig w1 accountNum currentEmail
                currentConfig
              match readJsonSeq w2.seqFile with
              | none => (w2, .err .crash)
              | some data =>
                match pyInt? accountNum with
                | none => (w2, .err .crash)
                | some m =>
                  let data2 : SeqData :=
                    { activeAccountNumber := some m,
                      lastUpdated := w.now,
                      sequence := data.sequence ++ [m],
                      accounts := assocSet data.accounts accountNum
                        ⟨currentEmail, uuid, w.now⟩ }
                  ({ w2 with seqFile := .doc data2 }, .added n)

/-! ## `remove_account` -/

/-- Model of `remove_account`.  `confirm` models the interactive
confirmation prompt's answer. -/
def removeAccount (w : World) (identifier : String) (confirm : Bool) :
    World × RemoveResult :=
  match w.seqFile with
  | .absent => (w, .err .configError)
  | _ =>
    if !strIsDigit identifier && !validEmail identifier then
      (w, .err .validationError)
    else
      match resolveIdentifier w identifier with
      | none => (w, .err .accountNotFound)
      | some accountNum =>
        match readJsonSeq w.seqFile with
        | none => (w, .err .crash)
        | some data =>
          match assocGet data.accounts accountNum with
          | none => (w, .err .accountNotFound)
          | some info =>
            if !confirm then (w, .cancelled)
            else
              let w1 := deleteAccountCredentials w accountNum info.email
              let w2 := deleteAccountConfig w1 accountNum info.email
              match pyInt? accountNum with
              | none => (w2, .err .crash)
              | some m =>
                let data2 : SeqData :=
                  { activeAccountNumber := data.activeAccountNumber,
                    lastUpdated := w.now,
                    sequence := data.sequence.filter (fun x => x ≠ m),
                    accounts := assocErase data.accounts accountNum }
                ({ w2 with seqFile := .doc data2 }, .removed)

/-! ## The switch transaction engine (`_perform_switch` + rollback) -/

/-- Recorded transaction steps (from `models.SwitchTransaction`). -/
inductive Step where
  | credentials_written : Step
  | config_written : Step
  | sequence_updated : Step
deriving DecidableEq

/-- The rollback data captured before the switch begins. -/
structure SwitchTransaction where
  originalCredentials : String
  originalConfig : TextDoc
  originalAccountNum : String
  originalEmail : String
  completedSteps : List Step

/-- Model of one arm of `SwitchTransaction.rollback`; the `Bool` is whether
the step rolled back without raising. -/
def rollbackStep (w : World) (t : SwitchTransaction) (s : Step) :
    World × Bool :=
  match s with
  | .credentials_written => (writeCredentials w t.originalCredentials, true)
  | .config_written => ({ w with liveConfig := some t.originalConfig }, true)
  | .sequence_updated =>
    match readJsonSeq w.seqFile with
    | none => (w, true)
    | some d =>
      match pyInt? t.originalAccountNum with
      | none => (w, false)
      | some n =>
        let d2 : SeqData :=
          { d with activeAccountNumber := some n, lastUpdated := w.now }
        ({ w with seqFile := .doc d2 }, true)

/-- Model of `SwitchTransaction.rollback`: walk completed steps in reverse;
each step is attempted independently and overall success is the
conjunction. -/
def rollback (w : World) (t : SwitchTransaction) : World × Bool :=
  t.completedSteps.reverse.foldl
    (fun acc s =>
      let r := rollbackStep acc.1 t s
      (r.1, acc.2 && r.2))
    (w, true)

/-- The error-path wrapper at the end of `_perform_switch`: rollback if any
step completed, mapping the original error to the rolled-back /
rollback-failed `SwitchError`s; re-raise unchanged otherwise. -/
def failSwitch (w : World) (t : SwitchTransaction) (e : Err) :
    World × SwitchResult :=
  if t.completedSteps.isEmpty then (w, .err e)
  else
    let r := rollback w t
    if r.2 then (r.1, .err .switchRolledBack)
    else (r.1, .err .switchRollbackFailed)

/-- Fault injection: `liveConfigWriteFails` makes the `_write_json` of the
merged live configuration document raise (the simulated disk error of the
spec's failure-injection property).  All other writes succeed. -/
structure Faults where
  liveConfigWriteFails : Bool

/-- Model of `_perform_switch` (the body inside the file lock).  Mirrors the
source's statement order; each `match` arm that returns an error
corresponds to the exception raised there. -/
def performSwitch (w : World) (faults : Faults) (targetAccount : String) :
    World × SwitchResult :=
  match readJsonSeq w.seqFile with
  | none => (w, .err .crash)
  | some data =>
    let currentAccount := strOfOptInt data.activeAccountNumber
    match assocGet data.accounts targetAccount with
    | none => (w, .err .crash)
    | some targetInfo =>
      let targetEmail := targetInfo.email
      match getCurrentAccount w with
      | none => (w, .err .switchNoCurrent)
      | some currentEmail =>
        match readCredentials w with
        | none => (w, .err .credentialReadError)
        | some originalCreds =>
          match w.liveConfig with
          | none => (w, .err .configError)
          | some originalConfig =>
            -- Step 1: backup of the currently active account
            let w1 := writeAccountCredentials w currentAccount currentEmail
              originalCreds
            let w2 := writeAccountConfig w1 currentAccount currentEmail
              originalConfig
            -- Step 2: retrieve the target's backups
            let targetCreds := readAccountCredentials w2 targetAccount
              targetEmail
            let targetConfig := readAccountConfig w2 targetAccount targetEmail
            if targetCreds.isEmpty || !textTruthy targetConfig then
              -- `completed_steps` is empty: the original error is re-raised
              (w2, .err .switchMissingBackup)
            else
              -- Step 3: install the target's credentials
              let w3 := writeCredentials w2 targetCreds
              let t1 : SwitchTransaction :=
                ⟨originalCreds, originalConfig, currentAccount, currentEmail,
                  [.credentials_written]⟩
              -- Step 4: merge the target's oauthAccount into the live config
              match targetConfig with
              | .jsonDoc targetFields =>
                match assocGet targetFields "oauthAccount" with
                | some oauthSection =>
                  if !jTruthy oauthSection then
                    failSwitch w3 t1 .switchInvalidOauth
                  else
                    match w3.liveConfig with
                    | some (.jsonDoc currentFields) =>
                      if faults.liveConfigWriteFails then
                        failSwitch w3 t1 .configError
                      else
                        let merged := assocSet currentFields "oauthAccount"
                          oauthSection
                        let w4 := { w3 with
                          liveConfig := some (TextDoc.jsonDoc merged) }
                        let t2 : SwitchTransaction :=
                          ⟨originalCreds, originalConfig, currentAccount,
                            currentEmail,
                            [.credentials_written, .config_written]⟩
                        -- Step 5: update the sequence state
                        match pyInt? targetAccount with
                        | none => failSwitch w4 t2 .crash
                        | some tnum =>
                          let data2 : SeqData := { data with
                            activeAccountNumber := some tnum
                            lastUpdated := w.now }
                          ({ w4 with seqFile := .doc data2 }, .switched)
                    | _ =>
                      -- `_read_json` returned None; `None["oauthAccount"]`
                      -- raises and is caught by the rollback handler
                      failSwitch w3 t1 .crash
                | none => failSwitch w3 t1 .switchInvalidOauth
              | _ =>
                -- `json.loads(target_config)` raised (non-empty, unparseable)
                failSwitch w3 t1 .crash

/-! ## `switch` (rotate to the next account) -/

/-- The rotation-target computation inside `switch`: index of
`active_slot` in `sequence` (0 when absent), advanced by one cyclically. -/
def rotationTarget (sequence : List Int) (active : Option Int) : String :=
  let currentIndex :=
    match active with
    | some a => (sequence.findIdx? (fun x => x = a)).getD 0
    | none => 0
  let nextIndex := (currentIndex + 1) % sequence.length
  intStr (sequence.getD nextIndex 0)

/-- Model of `switch`: rotate to the next account in sequence, auto-adding
an unmanaged live identity first (and returning without switching). -/
def switchNext (w : World) (faults : Faults) : World × RotateResult :=
  match w.seqFile with
  | .absent => (w, .err .configError)
  | _ =>
    match getCurrentAccount w with
    | none => (w, .err .configError)
    | some currentEmail =>
      if !accountExists w currentEmail then
        match addAccount w with
        | (w1, .err e) => (w1, .err e)
        | (w1, _) =>
          match readJsonSeq w1.seqFile with
          | none => (w1, .err .crash)
          | some d => (w1, .autoAdded d.activeAccountNumber)
      else
        match readJsonSeq w.seqFile with
        | none => (w, .err .crash)
        | some data =>
          if data.sequence.length < 2 then (w, .onlyOne)
          else
            match performSwitch w faults
                (rotationTarget data.sequence data.activeAccountNumber) with
            | (w', .switched) => (w', .switched)
            | (w', .err e) => (w', .err e)

/-! ## Claim C2: missing backup data aborts before touching live state -/

/-- C2: if the target slot's stored credential blob or stored configuration
document is empty (falsy), the switch aborts with the missing-backup-data
`SwitchError`, and the only writes performed are the re-backup of the
currently active slot's own live state into its own backup slot: the live
credential store, the live configuration document and the registry file
are exactly as before. -/
theorem c2_missing_backup_aborts_before_live_writes
    (w : World) (faults : Faults) (target : String) (d : SeqData)
    (hseq : w.seqFile = .doc d)
    (info : Account) (htgt : assocGet d.accounts target = some info)
    (e : String) (hcur : getCurrentAccount w = some e)
    (c0 : String) (hcreds : readCredentials w = some c0)
    (t0 : TextDoc) (hcfg : w.liveConfig = some t0)
    (hkey : slotKey target info.email
      ≠ slotKey (strOfOptInt d.activeAccountNumber) e)
    (hmiss : ((readAccountCredentials w target info.email).isEmpty
      || !textTruthy (readAccountConfig w target info.email)) = true) :
    performSwitch w faults target =
      ({ w with
          credBackups := assocSet w.credBackups
            (slotKey (strOfOptInt d.activeAccountNumber) e) (.b64 c0),
          configBackups := assocSet w.configBackups
            (slotKey (strOfOptInt d.activeAccountNumber) e) t0 },
        .err .switchMissingBackup) := by
  simp only [readAccountCredentials, readAccountConfig] at hmiss
  obtain ⟨sf, lcr, lcf, cb, cfb, nw⟩ := w
  simp only at hseq hcfg ⊢
  subst hseq
  subst hcfg
  simp only [performSwitch, readJsonSeq, htgt, hcur, hcreds,
    writeAccountCredentials, writeAccountConfig, readAccountCredentials,
    readAccountConfig]
  rw [assocGet_assocSet_other _ _ _ _ hkey,
    assocGet_assocSet_other _ _ _ _ hkey]
  simp only at hmiss
  rw [if_pos hmiss]

/-- Concrete world used by several witnesses: two managed accounts, the
live identity is account 1, account 1's backups exist, account 2's backups
are absent. -/
def witWorldNoBackup : World :=
  { seqFile := .doc
      { activeAccountNumber := some 1, lastUpdated := "t0",
        sequence := [1, 2],
        accounts := [("1", ⟨"a@x.co", "ua", "t0"⟩),
                     ("2", ⟨"b@x.co", "ub", "t0"⟩)] },
    liveCreds := .stored "creds-a",
    liveConfig := some (.jsonDoc
      [("oauthAccount", .jobj
        [("emailAddress", .jstr "a@x.co"), ("accountUuid", .jstr "ua")])]),
    credBackups := [("1-a@x.co", .b64 "creds-a")],
    configBackups := [("1-a@x.co", .jsonDoc
      [("oauthAccount", .jobj
        [("emailAddress", .jstr "a@x.co"), ("accountUuid", .jstr "ua")])])],
    now := "t1" }

/-- Witness for C2 at a concrete world: switching to account 2, whose
backups are missing, re-backs-up account 1 and aborts. -/
theorem c2_witness :
    performSwitch witWorldNoBackup ⟨false⟩ "2" =
      ({ witWorldNoBackup with
          credBackups := assocSet witWorldNoBackup.credBackups "1-a@x.co"
            (.b64 "creds-a"),
          configBackups := assocSet witWorldNoBackup.configBackups "1-a@x.co"
            (witWorldNoBackup.liveConfig.getD .empty) },
        .err .switchMissingBackup) := by
  have h := c2_missing_backup_aborts_before_live_writes witWorldNoBackup
    ⟨false⟩ "2"
    { activeAccountNumber := some 1, lastUpdated := "t0",
      sequence := [1, 2],
      accounts := [("1", ⟨"a@x.co", "ua", "t0"⟩),
                   ("2", ⟨"b@x.co", "ub", "t0"⟩)] }
    rfl ⟨"b@x.co", "ub", "t0"⟩ (by rfl) "a@x.co" (by rfl) "creds-a" (by rfl)
    (witWorldNoBackup.liveConfig.getD .empty) (by rfl)
    (by simp [slotKey, strOfOptInt, intStr, natToChars, natToCharsAux,
      digitChar])
    (by rfl)
  exact h

/-! ## Claim C1: failed config write after credential install rolls back -/

/-- C1: if the write of the merged live configuration document fails after
the target's credentials were already installed, then by the time
`_perform_switch` returns its error the live credential store has been
restored to its pre-switch value (the rollback walks the recorded
completed steps — here exactly `credentials_written` — in reverse and
reinstalls the pre-transaction credential blob), and the reported error is
the rolled-back `SwitchError`. -/
theorem c1_config_write_failure_restores_credentials
    (w : World) (faults : Faults) (target : String) (d : SeqData)
    (hseq : w.seqFile = .doc d)
    (info : Account) (htgt : assocGet d.accounts target = some info)
    (e : String) (hcur : getCurrentAccount w = some e)
    (c0 : String) (hcreds : w.liveCreds = .stored c0)
    (f0 : List (String × JVal)) (hcfg : w.liveConfig = some (.jsonDoc f0))
    (hkey : slotKey target info.email
      ≠ slotKey (strOfOptInt d.activeAccountNumber) e)
    (tc : String) (htc : readAccountCredentials w target info.email = tc)
    (htcne : tc.isEmpty = false)
    (tf : List (String × JVal))
    (htcfg : readAccountConfig w target info.email = .jsonDoc tf)
    (oauth : JVal) (hoauth : assocGet tf "oauthAccount" = some oauth)
    (hoauthT : jTruthy oauth = true)
    (hfault : faults.liveConfigWriteFails = true) :
    (performSwitch w faults target).1.liveCreds = .stored c0 ∧
      (performSwitch w faults target).2 = .err .switchRolledBack := by
  simp only [readAccountCredentials, readAccountConfig] at htc htcfg
  obtain ⟨sf, lcr, lcf, cb, cfb, nw⟩ := w
  simp only at hseq hcfg hcreds ⊢
  subst hseq
  subst hcfg
  subst hcreds
  simp only [performSwitch, readJsonSeq, htgt, hcur, readCredentials,
    writeAccountCredentials, writeAccountConfig, readAccountCredentials,
    readAccountConfig]
  rw [assocGet_assocSet_other _ _ _ _ hkey,
    assocGet_assocSet_other _ _ _ _ hkey]
  simp only at htc htcfg
  rw [htc, htcfg]
  simp only [textTruthy, Bool.not_true, Bool.or_false, htcne,
    Bool.false_eq_true, if_false, hoauth, hoauthT, Bool.not_eq_true',
    hfault, if_true, failSwitch, rollback, rollbackStep, writeCredentials,
    List.isEmpty_cons, List.reverse_cons, List.reverse_nil,
    List.nil_append, List.foldl_cons, List.foldl_nil, Bool.true_and]
  exact ⟨trivial, trivial⟩

/-- Concrete world for the C1 witness: both accounts fully backed up, the
live identity is account 1. -/
def witWorldFull : World :=
  { seqFile := .doc
      { activeAccountNumber := some 1, lastUpdated := "t0",
        sequence := [1, 2],
        accounts := [("1", ⟨"a@x.co", "ua", "t0"⟩),
                     ("2", ⟨"b@x.co", "ub", "t0"⟩)] },
    liveCreds := .stored "creds-a",
    liveConfig := some (.jsonDoc
      [("theme", .jstr "dark"),
       ("oauthAccount", .jobj
        [("emailAddress", .jstr "a@x.co"), ("accountUuid", .jstr "ua")])]),
    credBackups := [("1-a@x.co", .b64 "creds-a"),
                    ("2-b@x.co", .b64 "creds-b")],
    configBackups := [("1-a@x.co", .jsonDoc
      [("oauthAccount", .jobj
        [("emailAddress", .jstr "a@x.co"), ("accountUuid", .jstr "ua")])]),
                      ("2-b@x.co", .jsonDoc
      [("oauthAccount", .jobj
        [("emailAddress", .jstr "b@x.co"), ("accountUuid", .jstr "ub")])])],
    now := "t1" }

/-- Witness for C1: with the injected config-write fault, switching to
account 2 reports a rolled-back error and the live credentials are still
account 1's. -/
theorem c1_witness :
    (performSwitch witWorldFull ⟨true⟩ "2").1.liveCreds
        = .stored "creds-a" ∧
      (performSwitch witWorldFull ⟨true⟩ "2").2 = .err .switchRolledBack :=
  c1_config_write_failure_restores_credentials witWorldFull ⟨true⟩ "2"
    { activeAccountNumber := some 1, lastUpdated := "t0",
      sequence := [1, 2],
      accounts := [("1", ⟨"a@x.co", "ua", "t0"⟩),
                   ("2", ⟨"b@x.co", "ub", "t0"⟩)] }
    rfl ⟨"b@x.co", "ub", "t0"⟩ (by rfl) "a@x.co" (by rfl) "creds-a" rfl
    [("theme", .jstr "dark"),
     ("oauthAccount", .jobj
      [("emailAddress", .jstr "a@x.co"), ("accountUuid", .jstr "ua")])]
    rfl
    (by simp [slotKey, strOfOptInt, intStr, natToChars, natToCharsAux,
      digitChar])
    "creds-b" (by rfl) (by rfl)
    [("oauthAccount", .jobj
      [("emailAddress", .jstr "b@x.co"), ("accountUuid", .jstr "ub")])]
    (by rfl)
    (.jobj [("emailAddress", .jstr "b@x.co"), ("accountUuid", .jstr "ub")])
    (by rfl) (by rfl) rfl

/-! ## Claim C6: a successful switch only replaces `oauthAccount` -/

/-- C6: after a successful switch, the live configuration document equals
the live document read fresh during the switch with only its
`oauthAccount` sub-object replaced by the target slot's stored sub-object;
lookups of every other field are unchanged. -/
theorem c6_switch_replaces_only_oauth
    (w : World) (faults : Faults) (target : String) (d : SeqData)
    (hseq : w.seqFile = .doc d)
    (info : Account) (htgt : assocGet d.accounts target = some info)
    (e : String) (hcur : getCurrentAccount w = some e)
    (c0 : String) (hcreds : w.liveCreds = .stored c0)
    (f0 : List (String × JVal)) (hcfg : w.liveConfig = some (.jsonDoc f0))
    (hkey : slotKey target info.email
      ≠ slotKey (strOfOptInt d.activeAccountNumber) e)
    (tc : String) (htc : readAccountCredentials w target info.email = tc)
    (htcne : tc.isEmpty = false)
    (tf : List (String × JVal))
    (htcfg : readAccountConfig w target info.email = .jsonDoc tf)
    (oauth : JVal) (hoauth : assocGet tf "oauthAccount" = some oauth)
    (hoauthT : jTruthy oauth = true)
    (hfault : faults.liveConfigWriteFails = false)
    (tn : Int) (htn : pyInt? target = some tn) :
    (performSwitch w faults target).2 = .switched ∧
      (performSwitch w faults target).1.liveConfig
        = some (.jsonDoc (assocSet f0 "oauthAccount" oauth)) ∧
      assocGet (assocSet f0 "oauthAccount" oauth) "oauthAccount"
        = some oauth ∧
      (∀ k, k ≠ "oauthAccount" →
        assocGet (assocSet f0 "oauthAccount" oauth) k = assocGet f0 k) := by
  refine ⟨?_, ?_, assocGet_assocSet_same _ _ _,
    fun k hk => assocGet_assocSet_other _ _ _ _ hk⟩ <;>
  · simp only [readAccountCredentials, readAccountConfig] at htc htcfg
    obtain ⟨sf, lcr, lcf, cb, cfb, nw⟩ := w
    simp only at hseq hcfg hcreds ⊢
    subst hseq
    subst hcfg
    subst hcreds
    simp only [performSwitch, readJsonSeq, htgt, hcur, readCredentials,
      writeAccountCredentials, writeAccountConfig, readAccountCredentials,
      readAccountConfig]
    rw [assocGet_assocSet_other _ _ _ _ hkey,
      assocGet_assocSet_other _ _ _ _ hkey]
    simp only at htc htcfg
    rw [htc, htcfg]
    simp only [textTruthy, Bool.not_true, Bool.or_false, htcne,
      Bool.false_eq_true, if_false, hoauth, hoauthT, Bool.not_eq_true',
      hfault, writeCredentials, htn]

/-- The live configuration fields of `witWorldFull`. -/
def witLiveFields : List (String × JVal) :=
  [("theme", .jstr "dark"),
   ("oauthAccount", .jobj
    [("emailAddress", .jstr "a@x.co"), ("accountUuid", .jstr "ua")])]

/-- Account 2's stored `oauthAccount` sub-object in `witWorldFull`. -/
def witOauthB : JVal :=
  .jobj [("emailAddress", .jstr "b@x.co"), ("accountUuid", .jstr "ub")]

/-- Witness for C6: the concrete fault-free switch from account 1 to
account 2 in `witWorldFull`. -/
theorem c6_witness :
    (performSwitch witWorldFull ⟨false⟩ "2").2 = .switched ∧
      (performSwitch witWorldFull ⟨false⟩ "2").1.liveConfig
        = some (.jsonDoc (assocSet witLiveFields "oauthAccount" witOauthB)) ∧
      assocGet (assocSet witLiveFields "oauthAccount" witOauthB)
          "oauthAccount" = some witOauthB ∧
      (∀ k, k ≠ "oauthAccount" →
        assocGet (assocSet witLiveFields "oauthAccount" witOauthB) k
          = assocGet witLiveFields k) :=
  c6_switch_replaces_only_oauth witWorldFull ⟨false⟩ "2"
    { activeAccountNumber := some 1, lastUpdated := "t0",
      sequence := [1, 2],
      accounts := [("1", ⟨"a@x.co", "ua", "t0"⟩),
                   ("2", ⟨"b@x.co", "ub", "t0"⟩)] }
    rfl ⟨"b@x.co", "ub", "t0"⟩ (by rfl) "a@x.co" (by rfl) "creds-a" rfl
    witLiveFields rfl
    (by simp [slotKey, strOfOptInt, intStr, natToChars, natToCharsAux,
      digitChar])
    "creds-b" (by rfl) (by rfl)
    [("oauthAccount", witOauthB)]
    (by rfl) witOauthB (by rfl) (by rfl) rfl 2 (by rfl)

/-! ## Claim C10: rotate-next on an unmanaged live identity auto-adds it -/

/-- C10: when the registry document exists and the live configuration's
current email is not among the managed accounts, `switch` adds the current
identity as a new slot (which becomes the active slot) and returns without
performing any switch; live credentials and live configuration are
untouched, every other slot's registry entry is unchanged, and no other
backup entry is written. -/
theorem c10_rotate_unmanaged_auto_adds
    (w : World) (faults : Faults) (d : SeqData)
    (hseq : w.seqFile = .doc d)
    (e : String) (hcur : getCurrentAccount w = some e)
    (hnotex : accountExists w e = false)
    (n : Int) (hnext : getNextAccountNumber w = some n)
    (c0 : String) (hcreds : readCredentials w = some c0)
    (hc0ne : c0.isEmpty = false)
    (f0 : List (String × JVal)) (hcfg : w.liveConfig = some (.jsonDoc f0)) :
    switchNext w faults =
      ({ w with
          seqFile := .doc
            { activeAccountNumber := some n,
              lastUpdated := w.now,
              sequence := d.sequence ++ [n],
              accounts := assocSet d.accounts (intStr n)
                ⟨e, oauthField f0 "accountUuid", w.now⟩ },
          credBackups := assocSet w.credBackups (slotKey (intStr n) e)
            (.b64 c0),
          configBackups := assocSet w.configBackups (slotKey (intStr n) e)
            (.jsonDoc f0) },
        .autoAdded (some n)) ∧
      (∀ k, k ≠ intStr n →
        assocGet (assocSet d.accounts (intStr n)
          ⟨e, oauthField f0 "accountUuid", w.now⟩) k
          = assocGet d.accounts k) ∧
      (∀ k, k ≠ slotKey (intStr n) e →
        assocGet (assocSet w.credBackups (slotKey (intStr n) e) (.b64 c0)) k
          = assocGet w.credBackups k) := by
  refine ⟨?_, fun k hk => assocGet_assocSet_other _ _ _ _ hk,
    fun k hk => assocGet_assocSet_other _ _ _ _ hk⟩
  obtain ⟨sf, lcr, lcf, cb, cfb, nw⟩ := w
  simp only at hseq hcfg ⊢
  subst hseq
  subst hcfg
  simp only [switchNext, hcur, hnotex, Bool.not_false, if_true, addAccount,
    initSequenceFile, hnext, hcreds, hc0ne, Bool.false_eq_true, if_false,
    writeAccountCredentials, writeAccountConfig, readJsonSeq,
    pyInt_intStr] at hcur hnotex hnext hcreds ⊢

/-- Concrete world for the C10 witness: one managed account `a@x.co`
(slot 1, active), but the live identity is the unmanaged `c@x.co`. -/
def witWorldUnmanaged : World :=
  { seqFile := .doc
      { activeAccountNumber := some 1, lastUpdated := "t0",
        sequence := [1],
        accounts := [("1", ⟨"a@x.co", "ua", "t0"⟩)] },
    liveCreds := .stored "creds-c",
    liveConfig := some (.jsonDoc
      [("oauthAccount", .jobj
        [("emailAddress", .jstr "c@x.co"), ("accountUuid", .jstr "uc")])]),
    credBackups := [("1-a@x.co", .b64 "creds-a")],
    configBackups := [("1-a@x.co", .jsonDoc
      [("oauthAccount", .jobj
        [("emailAddress", .jstr "a@x.co"), ("accountUuid", .jstr "ua")])])],
    now := "t1" }

/-- The live configuration fields of `witWorldUnmanaged`. -/
def witFieldsC : List (String × JVal) :=
  [("oauthAccount", .jobj
    [("emailAddress", .jstr "c@x.co"), ("accountUuid", .jstr "uc")])]

/-- Witness for C10 at `witWorldUnmanaged`: rotate-next adds `c@x.co` as
slot 2 (now active) and performs no switch. -/
theorem c10_witness :
    switchNext witWorldUnmanaged ⟨false⟩ =
      ({ witWorldUnmanaged with
          seqFile := .doc
            { activeAccountNumber := some 2,
              lastUpdated := "t1",
              sequence := [1] ++ [2],
              accounts := assocSet [("1", ⟨"a@x.co", "ua", "t0"⟩)]
                (intStr 2) ⟨"c@x.co", oauthField witFieldsC "accountUuid",
                  "t1"⟩ },
          credBackups := assocSet witWorldUnmanaged.credBackups
            (slotKey (intStr 2) "c@x.co") (.b64 "creds-c"),
          configBackups := assocSet witWorldUnmanaged.configBackups
            (slotKey (intStr 2) "c@x.co") (.jsonDoc witFieldsC) },
        .autoAdded (some 2)) ∧
      (∀ k, k ≠ intStr 2 →
        assocGet (assocSet [("1", (⟨"a@x.co", "ua", "t0"⟩ : Account))]
          (intStr 2) ⟨"c@x.co", oauthField witFieldsC "accountUuid", "t1"⟩) k
          = assocGet [("1", (⟨"a@x.co", "ua", "t0"⟩ : Account))] k) ∧
      (∀ k, k ≠ slotKey (intStr 2) "c@x.co" →
        assocGet (assocSet witWorldUnmanaged.credBackups
          (slotKey (intStr 2) "c@x.co") (.b64 "creds-c")) k
          = assocGet witWorldUnmanaged.credBackups k) :=
  c10_rotate_unmanaged_auto_adds witWorldUnmanaged ⟨false⟩
    { activeAccountNumber := some 1, lastUpdated := "t0",
      sequence := [1],
      accounts := [("1", ⟨"a@x.co", "ua", "t0"⟩)] }
    rfl "c@x.co" (by rfl) (by rfl) 2 (by rfl) "creds-c" (by rfl) (by rfl)
    witFieldsC rfl

/-! ## Claim C9 (corrected): vault read failures vs the empty sentinel -/

/-- A world whose only slot-2 credential backup file exists but whose
content fails to base64-decode (a failing backup read). -/
def witCorruptBlobWorld : World :=
  { witWorldNoBackup with credBackups := [("2-b@x.co", .corrupt)] }

/-- A world with no slot-2 credential backup at all. -/
def witNoBlobWorld : World :=
  { witWorldNoBackup with credBackups := [] }

/-- Counterexample to C9 as stated: a failing backup-slot credential read
(`witCorruptBlobWorld`, whose stored blob fails to decode) is *not*
reported as an error — `_read_account_credentials` logs a warning and
returns the empty-string sentinel, exactly the value returned when nothing
is stored (`witNoBlobWorld`), so the two outcomes are indistinguishable. -/
theorem c9_counterexample :
    readAccountCredentials witCorruptBlobWorld "2" "b@x.co" = "" ∧
      readAccountCredentials witNoBlobWorld "2" "b@x.co" = "" ∧
      readAccountCredentials witCorruptBlobWorld "2" "b@x.co"
        = readAccountCredentials witNoBlobWorld "2" "b@x.co" :=
  ⟨rfl, rfl, rfl⟩

/-- C9 as amended: only *live*-slot credential reads report a failure as an
error (`none`), which is distinguishable from the empty-string sentinel
`some ""` returned when nothing is stored; backup-slot read failures are
swallowed into the empty-string sentinel, indistinguishable from nothing
stored. -/
theorem c9_amended_live_read_failure_is_error :
    (∀ w : World, w.liveCreds = .unreadable → readCredentials w = none) ∧
      (∀ w : World, w.liveCreds = .absent → readCredentials w = some "") ∧
      (none : Option String) ≠ some "" ∧
      (∀ (w : World) (n e : String),
        assocGet w.credBackups (slotKey n e) = some .corrupt →
          readAccountCredentials w n e = "") ∧
      (∀ (w : World) (n e : String),
        assocGet w.credBackups (slotKey n e) = none →
          readAccountCredentials w n e = "") := by
  refine ⟨fun w h => ?_, fun w h => ?_, by simp, fun w n e h => ?_,
    fun w n e h => ?_⟩
  · simp [readCredentials, h]
  · simp [readCredentials, h]
  · simp [readAccountCredentials, h]
  · simp [readAccountCredentials, h]

/-- Witness for the amended C9, instantiated at concrete worlds. -/
theorem c9_amended_witness :
    readCredentials { witWorldNoBackup with liveCreds := .unreadable }
        = none ∧
      readCredentials { witWorldNoBackup with liveCreds := .absent }
        = some "" ∧
      readAccountCredentials witCorruptBlobWorld "2" "b@x.co" = "" :=
  ⟨c9_amended_live_read_failure_is_error.1 _ rfl,
    c9_amended_live_read_failure_is_error.2.1 _ rfl,
    c9_amended_live_read_failure_is_error.2.2.2.1 witCorruptBlobWorld
      "2" "b@x.co" rfl⟩

/-! ## Claim C4: rotation order -/

theorem findIdx?_eq_of_get (l : List Int) (a : Int) (i : Nat)
    (h : i < l.length) (hnd : l.Nodup) (hget : l.get ⟨i, h⟩ = a) :
    ∀ j, l.findIdx? (fun x => x = a) j = some (j + i) := by
  induction l generalizing i with
  | nil => exact absurd h (by simp)
  | cons b t ih =>
    intro j
    have hb := (List.nodup_cons.mp hnd).1
    have hndt := (List.nodup_cons.mp hnd).2
    match i with
    | 0 =>
      simp only [List.get] at hget
      subst hget
      simp [List.findIdx?_cons]
    | i' + 1 =>
      simp only [List.get] at hget
      have hmem : a ∈ t := hget ▸ t.get_mem i' _
      have hba : ¬ (b = a) := fun he => hb (he ▸ hmem)
      rw [List.findIdx?_cons, if_neg (by simp [hba])]
      rw [ih _ (by simpa using h) hndt hget (j + 1)]
      congr 1
      omega

theorem findIdx?_eq_none_of_not_mem (l : List Int) (a : Int) (ha : a ∉ l) :
    ∀ j, l.findIdx? (fun x => x = a) j = none := by
  induction l with
  | nil => intro j; simp
  | cons b t ih =>
    intro j
    rw [List.mem_cons] at ha
    push_neg at ha
    rw [List.findIdx?_cons, if_neg (by simp [Ne.symm ha.1])]
    exact ih ha.2 (j + 1)

/-- Three managed accounts, all fully backed up; the live identity is
account 1. -/
def witWorld3 : World :=
  { seqFile := .doc
      { activeAccountNumber := some 1, lastUpdated := "t0",
        sequence := [1, 2, 3],
        accounts := [("1", ⟨"a@x.co", "ua", "t0"⟩),
                     ("2", ⟨"b@x.co", "ub", "t0"⟩),
                     ("3", ⟨"c@x.co", "uc", "t0"⟩)] },
    liveCreds := .stored "creds-a",
    liveConfig := some (.jsonDoc
      [("oauthAccount", .jobj
        [("emailAddress", .jstr "a@x.co"), ("accountUuid", .jstr "ua")])]),
    credBackups := [("1-a@x.co", .b64 "creds-a"),
                    ("2-b@x.co", .b64 "creds-b"),
                    ("3-c@x.co", .b64 "creds-c")],
    configBackups := [("1-a@x.co", .jsonDoc
      [("oauthAccount", .jobj
        [("emailAddress", .jstr "a@x.co"), ("accountUuid", .jstr "ua")])]),
                      ("2-b@x.co", .jsonDoc
      [("oauthAccount", .jobj
        [("emailAddress", .jstr "b@x.co"), ("accountUuid", .jstr "ub")])]),
                      ("3-c@x.co", .jsonDoc
      [("oauthAccount", .jobj
        [("emailAddress", .jstr "c@x.co"), ("accountUuid", .jstr "uc")])])],
    now := "t1" }

/-- The `active_slot` recorded in a world's registry document. -/
def activeSlot (w : World) : Option Int :=
  match w.seqFile with
  | .doc d => d.activeAccountNumber
  | _ => none

def rotW1 : World := (switchNext witWorld3 ⟨false⟩).1
def rotW2 : World := (switchNext rotW1 ⟨false⟩).1
def rotW3 : World := (switchNext rotW2 ⟨false⟩).1

/-- C4: `switch` computes its rotation target as the slot following
`active_slot` in `sequence`, cyclically.  Concretely, with slots
`[1,2,3]` and `active_slot = 1`, three successive rotations make the
active slot 2, then 3, then 1.  In general the target is the entry one
past the position of `active_slot`, modulo the length; when `active_slot`
does not occur in `sequence`, the current position is treated as index 0
(so the target is the entry at index `1 % length`). -/
theorem c4_rotation_cyclic
    (seq : List Int) (a : Int) (i : Nat) (h : i < seq.length)
    (hnd : seq.Nodup) (hget : seq.get ⟨i, h⟩ = a) (b : Int) (hb : b ∉ seq) :
    (activeSlot rotW1 = some 2 ∧ activeSlot rotW2 = some 3 ∧
      activeSlot rotW3 = some 1) ∧
      rotationTarget seq (some a)
        = intStr (seq.getD ((i + 1) % seq.length) 0) ∧
      rotationTarget seq (some b)
        = intStr (seq.getD (1 % seq.length) 0) := by
  refine ⟨⟨by rfl, by rfl, by rfl⟩, ?_, ?_⟩
  · simp only [rotationTarget, findIdx?_eq_of_get seq a i h hnd hget 0,
      Option.getD_some, Nat.zero_add]
  · simp only [rotationTarget, findIdx?_eq_none_of_not_mem seq b hb 0,
      Option.getD_none, Nat.zero_add]

/-- Witness for C4 at the concrete sequence `[1,2,3]` with active slot 1
and the absent slot 9. -/
theorem c4_witness :
    (activeSlot rotW1 = some 2 ∧ activeSlot rotW2 = some 3 ∧
      activeSlot rotW3 = some 1) ∧
      rotationTarget [1, 2, 3] (some 1)
        = intStr (([1, 2, 3] : List Int).getD ((0 + 1) % 3) 0) ∧
      rotationTarget [1, 2, 3] (some 9)
        = intStr (([1, 2, 3] : List Int).getD (1 % 3) 0) :=
  c4_rotation_cyclic [1, 2, 3] 1 0 (by decide) (by decide) (by decide)
    9 (by decide)

/-! ## Claim C5 (corrected): next slot number and number reuse -/

/-- A live configuration document for email `e` and account uuid `u`. -/
def cfgDoc (e u : String) : TextDoc :=
  .jsonDoc [("oauthAccount", .jobj
    [("emailAddress", .jstr e), ("accountUuid", .jstr u)])]

def c5w0 : World :=
  { seqFile := .absent, liveCreds := .stored "ka",
    liveConfig := some (cfgDoc "a@x.co" "ua"),
    credBackups := [], configBackups := [], now := "t" }

def c5w1 : World := (addAccount c5w0).1

def c5w1b : World :=
  { c5w1 with
    liveConfig := some (cfgDoc "b@x.co" "ub")
    liveCreds := .stored "kb" }

def c5w2 : World := (addAccount c5w1b).1

def c5w3 : World := (removeAccount c5w2 "2" true).1

def c5w3c : World :=
  { c5w3 with
    liveConfig := some (cfgDoc "c@x.co" "uc")
    liveCreds := .stored "kc" }

/-- Counterexample to C5 as stated: starting from an empty registry, add
`a@x.co` (slot 1) and `b@x.co` (slot 2), remove slot 2, then add
`c@x.co`: the new identity is assigned slot number 2 again — a number
already assigned (and freed) earlier in the registry's lifetime, so the
claimed "never reused / strictly greater than any number ever assigned"
fails whenever the removed slot carried the maximum number. -/
theorem c5_counterexample :
    (addAccount c5w0).2 = .added 1 ∧
      (addAccount c5w1b).2 = .added 2 ∧
      (removeAccount c5w2 "2" true).2 = .removed ∧
      (addAccount c5w3c).2 = .added 2 := by
  refine ⟨by rfl, by rfl, by rfl, by rfl⟩

theorem foldl_max_init_le (l : List Int) (a : Int) : a ≤ l.foldl max a := by
  induction l generalizing a with
  | nil => simp
  | cons b t ih => exact le_trans (le_max_left a b) (ih (max a b))

theorem foldl_max_mem_le (l : List Int) :
    ∀ (a x : Int), x ∈ l → x ≤ l.foldl max a := by
  induction l with
  | nil => intro a x hx; simp at hx
  | cons b t ih =>
    intro a x hx
    rcases List.mem_cons.mp hx with he | ht
    · subst he
      exact le_trans (le_max_right a x) (foldl_max_init_le t (max a x))
    · exact ih (max a b) x ht

theorem listMaxD_mem_le (l : List Int) (d x : Int) (hx : x ∈ l) :
    x ≤ listMaxD l d := by
  match l with
  | [] => simp at hx
  | b :: t =>
    rcases List.mem_cons.mp hx with he | ht
    · subst he
      exact foldl_max_init_le t x
    · exact foldl_max_mem_le t b x ht

theorem intsOfKeys_map_intStr (ks : List Int) :
    intsOfKeys (ks.map intStr) = some ks := by
  induction ks with
  | nil => rfl
  | cons k t ih => simp [intsOfKeys, pyInt_intStr, ih]

/-- C5 as amended: the next slot number is one more than the maximum slot
number currently present (or 1 when the registry is empty or absent), and
is therefore strictly greater than every *currently existing* slot
number.  Freed numbers are, however, reusable: removing the slot with the
maximum number makes its number eligible for reassignment
(`c5_counterexample`). -/
theorem c5_amended_next_number
    (w : World) (d : SeqData) (hseq : readJsonSeq w.seqFile = some d)
    (ks : List Int) (hkeys : d.accounts.map Prod.fst = ks.map intStr) :
    (∀ w' : World, readJsonSeq w'.seqFile = none →
      getNextAccountNumber w' = some 1) ∧
      (d.accounts.isEmpty = true → getNextAccountNumber w = some 1) ∧
      (d.accounts.isEmpty = false →
        getNextAccountNumber w = some (listMaxD ks 0 + 1) ∧
          ∀ k ∈ ks, k < listMaxD ks 0 + 1) := by
  refine ⟨fun w' h => ?_, fun h => ?_, fun h => ⟨?_, ?_⟩⟩
  · simp [getNextAccountNumber, h]
  · simp [getNextAccountNumber, hseq, h]
  · simp [getNextAccountNumber, hseq, h, hkeys, intsOfKeys_map_intStr]
  · intro k hk
    have := listMaxD_mem_le ks 0 k hk
    omega

/-- A registry document holding slots 1 and 3. -/
def c5WitDoc : SeqData :=
  { activeAccountNumber := some 1, lastUpdated := "t0",
    sequence := [1, 3],
    accounts := [("1", ⟨"a@x.co", "ua", "t0"⟩),
                 ("3", ⟨"c@x.co", "uc", "t0"⟩)] }

def c5WitAbsentWorld : World := { witWorldNoBackup with seqFile := .absent }

def c5WitWorld : World := { witWorldNoBackup with seqFile := .doc c5WitDoc }

/-- Witness for the amended C5, at a registry holding slots 1 and 3. -/
theorem c5_amended_witness :
    getNextAccountNumber c5WitAbsentWorld = some 1 ∧
      getNextAccountNumber c5WitWorld = some (listMaxD [1, 3] 0 + 1) := by
  constructor
  · exact (c5_amended_next_number c5WitWorld c5WitDoc rfl [1, 3]
      (by rfl)).1 c5WitAbsentWorld rfl
  · exact ((c5_amended_next_number c5WitWorld c5WitDoc rfl [1, 3]
      (by rfl)).2.2 rfl).1

/-! ## Claims C3 and C7: registry invariants under add/remove sequences -/

/-- The live environment surrounding one registry operation (the registry
document persists between operations; everything else may change). -/
structure LiveEnv where
  liveCreds : CredFile
  liveConfig : Option TextDoc
  now : String

/-- One registry operation: adding the current live identity, or removing
an identified slot (with the confirmation answer). -/
inductive RegOp where
  | addOp : LiveEnv → RegOp
  | removeOp : LiveEnv → String → Bool → RegOp

/-- A world assembled from a persisted registry file and a live
environment. -/
def envWorld (sf : SeqFile) (env : LiveEnv) : World :=
  { seqFile := sf, liveCreds := env.liveCreds, liveConfig := env.liveConfig,
    credBackups := [], configBackups := [], now := env.now }

/-- The registry-file transition of one operation. -/
def applyOp (sf : SeqFile) (op : RegOp) : SeqFile :=
  match op with
  | .addOp env => ((addAccount (envWorld sf env)).1).seqFile
  | .removeOp env ident confirm =>
    ((removeAccount (envWorld sf env) ident confirm).1).seqFile

/-- The inductive registry invariant: the keys of `accounts` are exactly
the decimal strings of `sequence`, in the same order; `sequence` has no
duplicates and only positive entries; emails are pairwise distinct. -/
def goodDoc (d : SeqData) : Prop :=
  ∃ ks : List Int,
    d.accounts.map Prod.fst = ks.map intStr ∧
    d.sequence = ks ∧
    ks.Nodup ∧
    (∀ k ∈ ks, 1 ≤ k) ∧
    (d.accounts.map (fun kv => kv.2.email)).Nodup

def goodFile : SeqFile → Prop
  | .doc d => goodDoc d
  | _ => True

theorem initSequenceFile_good (w : World) (h : goodFile w.seqFile) :
    goodFile ((initSequenceFile w).seqFile) := by
  cases hsf : w.seqFile with
  | absent =>
    simp only [initSequenceFile, hsf, goodFile]
    exact ⟨[], by simp, by simp, by simp, by simp, by simp⟩
  | corrupt => simpa [initSequenceFile, hsf] using h
  | doc d => simpa [initSequenceFile, hsf] using h

/-- Shape lemma for `add_account`: either the registry file is exactly the
(possibly initialised) input file, or the operation succeeded and appended
a fresh slot computed by `_get_next_account_number`. -/
theorem addAccount_seqFile_cases (w : World) :
    ((addAccount w).1).seqFile = (initSequenceFile w).seqFile ∨
    ∃ (d : SeqData) (n : Int) (e u : String),
      readJsonSeq (initSequenceFile w).seqFile = some d ∧
      getNextAccountNumber (initSequenceFile w) = some n ∧
      accountExists (initSequenceFile w) e = false ∧
      ((addAccount w).1).seqFile = .doc
        { activeAccountNumber := some n,
          lastUpdated := (initSequenceFile w).now,
          sequence := d.sequence ++ [n],
          accounts := assocSet d.accounts (intStr n)
            ⟨e, u, (initSequenceFile w).now⟩ } := by
  simp only [addAccount]
  split
  · exact Or.inl rfl
  · rename_i e hcur
    split
    · exact Or.inl rfl
    · rename_i hex
      split
      · exact Or.inl rfl
      · rename_i n hnext
        split
        · exact Or.inl rfl
        · rename_i c hcreds
          split
          · exact Or.inl rfl
          · rename_i hcne
            split
            · exact Or.inl rfl
            · rename_i cfg hcfg
              split
              · exact Or.inl rfl
              · rename_i d hread
                split
                · exact Or.inl rfl
                · rename_i m hm
                  rw [pyInt_intStr n] at hm
                  have hmn : m = n := by
                    exact ((Option.some.injEq _ _).mp hm).symm
                  subst hmn
                  refine Or.inr ⟨d, m, e, _, ?_, hnext, by simpa using hex,
                    rfl⟩
                  simpa [writeAccountCredentials, writeAccountConfig]
                    using hread

/-- Shape lemma for `remove_account`: either the registry file is
untouched, or a present slot was deleted from `accounts` and filtered out
of `sequence`. -/
theorem removeAccount_seqFile_cases (w : World) (ident : String)
    (confirm : Bool) :
    ((removeAccount w ident confirm).1).seqFile = w.seqFile ∨
    ∃ (d : SeqData) (num : String) (info : Account) (m : Int),
      readJsonSeq w.seqFile = some d ∧
      assocGet d.accounts num = some info ∧
      pyInt? num = some m ∧
      ((removeAccount w ident confirm).1).seqFile = .doc
        { activeAccountNumber := d.activeAccountNumber,
          lastUpdated := w.now,
          sequence := d.sequence.filter (fun x => x ≠ m),
          accounts := assocErase d.accounts num } := by
  simp only [removeAccount]
  split
  · exact Or.inl rfl
  · split
    · exact Or.inl rfl
    · split
      · exact Or.inl rfl
      · rename_i num hres
        split
        · exact Or.inl rfl
        · rename_i d hread
          split
          · exact Or.inl rfl
          · rename_i info hinfo
            split
            · exact Or.inl rfl
            · split
              · exact Or.inl rfl
              · rename_i m hm
                exact Or.inr ⟨d, num, info, m, hread, hinfo, hm, rfl⟩

theorem readJsonSeq_doc_eq {sf : SeqFile} {d : SeqData}
    (h : readJsonSeq sf = some d) : sf = .doc d := by
  cases sf with
  | absent => simp [readJsonSeq] at h
  | corrupt => simp [readJsonSeq] at h
  | doc d' =>
    simp only [readJsonSeq, Option.some.injEq] at h
    rw [h]

/-- Freshness of `_get_next_account_number`: the produced number is
positive and strictly greater than every existing slot number. -/
theorem nextNumber_fresh (w' : World) (d : SeqData)
    (hread : readJsonSeq w'.seqFile = some d) (n : Int)
    (hnext : getNextAccountNumber w' = some n) (ks : List Int)
    (hkeys : d.accounts.map Prod.fst = ks.map intStr)
    (hpos : ∀ k ∈ ks, 1 ≤ k) :
    1 ≤ n ∧ ∀ k ∈ ks, k < n := by
  simp only [getNextAccountNumber, hread] at hnext
  split at hnext
  · rename_i hempty
    have hacc : d.accounts = [] := List.isEmpty_iff.mp hempty
    rw [hacc] at hkeys
    have hks : ks = [] := by
      cases ks with
      | nil => rfl
      | cons a t => simp at hkeys
    have hn : n = 1 := by
      simpa using hnext.symm
    subst hn hks
    exact ⟨by omega, by simp⟩
  · rename_i hempty
    rw [hkeys, intsOfKeys_map_intStr] at hnext
    simp only [Option.some.injEq] at hnext
    have hne : ks ≠ [] := by
      intro hk
      subst hk
      simp only [List.map_nil, List.map_eq_nil_iff] at hkeys
      rw [hkeys] at hempty
      simp at hempty
    obtain ⟨k0, t0, hk0⟩ := List.exists_cons_of_ne_nil hne
    have hk0mem : k0 ∈ ks := by rw [hk0]; exact List.mem_cons_self _ _
    have h1 : 1 ≤ k0 := hpos k0 hk0mem
    have h2 : k0 ≤ listMaxD ks 0 := listMaxD_mem_le ks 0 k0 hk0mem
    refine ⟨by omega, fun k hk => ?_⟩
    have := listMaxD_mem_le ks 0 k hk
    omega

/-- `_account_exists` returning false means no slot carries the email. -/
theorem accountExists_false_email (w' : World) (d : SeqData)
    (hread : readJsonSeq w'.seqFile = some d) (e : String)
    (hex : accountExists w' e = false) :
    ∀ a ∈ d.accounts, a.2.email ≠ e := by
  simp only [accountExists, hread, List.any_eq_false] at hex
  intro a ha
  have := hex a ha
  simpa using this

theorem addAccount_preserves_good (w : World) (h : goodFile w.seqFile) :
    goodFile ((addAccount w).1).seqFile := by
  rcases addAccount_seqFile_cases w with heq |
    ⟨d, n, e, u, hread, hnext, hex, heq⟩
  · rw [heq]
    exact initSequenceFile_good w h
  · rw [heq]
    have hgi := initSequenceFile_good w h
    rw [readJsonSeq_doc_eq hread] at hgi
    obtain ⟨ks, hkeys, hseq, hnd, hpos, hem⟩ := hgi
    obtain ⟨hn1, hklt⟩ := nextNumber_fresh _ d hread n hnext ks hkeys hpos
    have hnotmem : n ∉ ks := fun hmem => absurd (hklt n hmem) (lt_irrefl n)
    have hfresh : intStr n ∉ d.accounts.map Prod.fst := by
      rw [hkeys]
      intro hmem
      obtain ⟨k, hk, hke⟩ := List.mem_map.mp hmem
      exact hnotmem (intStr_injective hke ▸ hk)
    have hfreshe := accountExists_false_email _ d hread e hex
    refine ⟨ks ++ [n], ?_, by rw [hseq], ?_, ?_, ?_⟩
    · rw [assocSet_fresh _ _ _ hfresh]
      simp [hkeys]
    · simp only [List.nodup_append, List.nodup_cons, List.not_mem_nil,
        not_false_iff, List.nodup_nil, and_true, true_and]
      refine ⟨hnd, ?_⟩
      intro a ha hb
      simp only [List.mem_singleton] at hb
      exact hnotmem (hb ▸ ha)
    · intro k hk
      rcases List.mem_append.mp hk with h1 | h2
      · exact hpos k h1
      · simp only [List.mem_singleton] at h2
        omega
    · rw [assocSet_fresh _ _ _ hfresh]
      simp only [List.map_append, List.map_cons, List.map_nil,
        List.nodup_append, List.nodup_cons, List.not_mem_nil, not_false_iff,
        List.nodup_nil, and_true, true_and]
      refine ⟨hem, ?_⟩
      intro x hx hb
      simp only [List.mem_singleton] at hb
      obtain ⟨a, ha, hax⟩ := List.mem_map.mp hx
      exact hfreshe a ha (by rw [hax, hb])

theorem filter_ne_of_not_mem (t : List Int) (k0 : Int) (h : k0 ∉ t) :
    t.filter (fun x => x ≠ k0) = t := by
  induction t with
  | nil => rfl
  | cons a s ih =>
    rw [List.mem_cons] at h
    push_neg at h
    rw [List.filter_cons, if_pos (by simp [Ne.symm h.1])]
    rw [ih h.2]

theorem erase_map_filter (ks : List Int) (k0 : Int) (hnd : ks.Nodup) :
    (ks.map intStr).erase (intStr k0)
      = (ks.filter (fun x => x ≠ k0)).map intStr := by
  induction ks with
  | nil => rfl
  | cons a t ih =>
    have hat := (List.nodup_cons.mp hnd).1
    have hndt := (List.nodup_cons.mp hnd).2
    by_cases he : a = k0
    · subst he
      rw [List.map_cons, List.erase_cons_head, List.filter_cons,
        if_neg (by simp)]
      rw [filter_ne_of_not_mem t a hat]
    · rw [List.map_cons, List.erase_cons_tail, List.filter_cons,
        if_pos (by simp [he]), List.map_cons, ih hndt]
      simp only [beq_iff_eq]
      exact fun hc => he (intStr_injective hc)

theorem removeAccount_preserves_good (w : World) (ident : String)
    (confirm : Bool) (h : goodFile w.seqFile) :
    goodFile ((removeAccount w ident confirm).1).seqFile := by
  rcases removeAccount_seqFile_cases w ident confirm with heq |
    ⟨d, num, info, m, hread, hget, hm, heq⟩
  · rw [heq]
    exact h
  · rw [heq]
    have hgd := h
    rw [readJsonSeq_doc_eq hread] at hgd
    obtain ⟨ks, hkeys, hseq, hnd, hpos, hem⟩ := hgd
    -- the removed key is the decimal string of some k0 ∈ ks, and m = k0
    have hmem : num ∈ d.accounts.map Prod.fst := by
      rcases hn : assocGet d.accounts num with _ | v
      · rw [hn] at hget; exact absurd hget (by simp)
      · by_contra hc
        rw [← assocGet_eq_none_iff] at hc
        rw [hc] at hn
        exact absurd hn (by simp)
    obtain ⟨k0, hk0mem, hk0e⟩ := by
      rw [hkeys] at hmem
      exact List.mem_map.mp hmem
    have hmk0 : m = k0 := by
      rw [← hk0e, pyInt_intStr] at hm
      exact ((Option.some.injEq _ _).mp hm).symm
    subst hmk0
    refine ⟨ks.filter (fun x => x ≠ m), ?_, by rw [hseq], ?_, ?_, ?_⟩
    · rw [map_fst_assocErase, hkeys, ← hk0e, erase_map_filter ks m hnd]
    · exact hnd.filter _
    · intro k hk
      exact hpos k (List.mem_of_mem_filter hk)
    · exact hem.sublist ((assocErase_sublist d.accounts num).map _)

theorem applyOp_preserves_good (sf : SeqFile) (op : RegOp)
    (h : goodFile sf) : goodFile (applyOp sf op) := by
  cases op with
  | addOp env => exact addAccount_preserves_good (envWorld sf env) h
  | removeOp env ident confirm =>
    exact removeAccount_preserves_good (envWorld sf env) ident confirm h

theorem foldl_applyOp_good (ops : List RegOp) :
    ∀ sf, goodFile sf → goodFile (ops.foldl applyOp sf) := by
  induction ops with
  | nil => exact fun sf h => h
  | cons op t ih =>
    intro sf h
    exact ih (applyOp sf op) (applyOp_preserves_good sf op h)

/-- C3: for every sequence of add-current-identity / remove operations
starting from an empty (absent) registry, whenever the registry document
exists afterwards, the keys of `accounts` are exactly the decimal strings
of the `sequence` (order) entries — in order, with no duplicates, no gaps
and no entries for removed slots. -/
theorem c3_order_is_exactly_slots (ops : List RegOp) (d : SeqData)
    (h : ops.foldl applyOp .absent = .doc d) :
    d.accounts.map Prod.fst = d.sequence.map intStr ∧
      d.sequence.Nodup ∧ (d.accounts.map Prod.fst).Nodup := by
  have hg := foldl_applyOp_good ops .absent trivial
  rw [h] at hg
  obtain ⟨ks, hkeys, hseq, hnd, _, _⟩ := hg
  subst hseq
  refine ⟨hkeys, hnd, ?_⟩
  rw [hkeys]
  exact hnd.map fun a b hab => intStr_injective hab

/-- A live environment whose identity is email `e`, uuid `u`, secret `c`. -/
def mkEnv (e u c : String) : LiveEnv :=
  ⟨.stored c, some (cfgDoc e u), "t"⟩

/-- Witness for C3: a concrete add/add/remove/add history. -/
theorem c3_witness :
    (([RegOp.addOp (mkEnv "a@x.co" "ua" "ka"),
        RegOp.addOp (mkEnv "b@x.co" "ub" "kb"),
        RegOp.removeOp (mkEnv "b@x.co" "ub" "kb") "1" true,
        RegOp.addOp (mkEnv "c@x.co" "uc" "kc")].foldl applyOp .absent)
      = SeqFile.doc
        { activeAccountNumber := some 3, lastUpdated := "t",
          sequence := [2, 3],
          accounts := [("2", ⟨"b@x.co", "ub", "t"⟩),
                       ("3", ⟨"c@x.co", "uc", "t"⟩)] }) ∧
      ([("2", (⟨"b@x.co", "ub", "t"⟩ : Account)),
        ("3", ⟨"c@x.co", "uc", "t"⟩)].map Prod.fst
          = ([2, 3] : List Int).map intStr ∧
        ([2, 3] : List Int).Nodup ∧
        ([("2", (⟨"b@x.co", "ub", "t"⟩ : Account)),
          ("3", ⟨"c@x.co", "uc", "t"⟩)].map Prod.fst).Nodup) :=
  ⟨by rfl,
    c3_order_is_exactly_slots
      [RegOp.addOp (mkEnv "a@x.co" "ua" "ka"),
       RegOp.addOp (mkEnv "b@x.co" "ub" "kb"),
       RegOp.removeOp (mkEnv "b@x.co" "ub" "kb") "1" true,
       RegOp.addOp (mkEnv "c@x.co" "uc" "kc")]
      { activeAccountNumber := some 3, lastUpdated := "t",
        sequence := [2, 3],
        accounts := [("2", ⟨"b@x.co", "ub", "t"⟩),
                     ("3", ⟨"c@x.co", "uc", "t"⟩)] }
      (by rfl)⟩

/-! ## Claim C7: add-current-identity is idempotent; emails are unique -/

/-- C7: re-running add-current-identity when the live email already has a
slot performs no mutation at all (the returned world is the input world)
and reports "already managed"; and in every registry reachable from empty
by add/remove operations, emails are unique across slots. -/
theorem c7_add_idempotent_emails_unique :
    (∀ (w : World) (e : String), getCurrentAccount w = some e →
      accountExists w e = true → addAccount w = (w, .alreadyManaged)) ∧
      (∀ (ops : List RegOp) (d : SeqData),
        ops.foldl applyOp .absent = .doc d →
        (d.accounts.map (fun kv => kv.2.email)).Nodup) := by
  constructor
  · intro w e hcur hex
    have hdoc : ∃ d, w.seqFile = .doc d := by
      cases hsf : w.seqFile with
      | absent => rw [accountExists, hsf] at hex; simp [readJsonSeq] at hex
      | corrupt => rw [accountExists, hsf] at hex; simp [readJsonSeq] at hex
      | doc d => exact ⟨d, rfl⟩
    obtain ⟨d, hsf⟩ := hdoc
    have hinit : initSequenceFile w = w := by
      rw [initSequenceFile, hsf]
    simp only [addAccount, hinit, hcur, hex, if_true]
  · intro ops d h
    have hg := foldl_applyOp_good ops .absent trivial
    rw [h] at hg
    obtain ⟨_, _, _, _, _, hem⟩ := hg
    exact hem

/-- Witness for C7: `witWorldFull`'s live identity `a@x.co` is already
managed, so adding is a no-op; and the concrete C3 history has pairwise
distinct emails. -/
theorem c7_witness :
    addAccount witWorldFull = (witWorldFull, .alreadyManaged) ∧
      ([("2", (⟨"b@x.co", "ub", "t"⟩ : Account)),
        ("3", ⟨"c@x.co", "uc", "t"⟩)].map
          (fun kv => kv.2.email)).Nodup :=
  ⟨c7_add_idempotent_emails_unique.1 witWorldFull "a@x.co" (by rfl) (by rfl),
    c7_add_idempotent_emails_unique.2
      [RegOp.addOp (mkEnv "a@x.co" "ua" "ka"),
       RegOp.addOp (mkEnv "b@x.co" "ub" "kb"),
       RegOp.removeOp (mkEnv "b@x.co" "ub" "kb") "1" true,
       RegOp.addOp (mkEnv "c@x.co" "uc" "kc")]
      { activeAccountNumber := some 3, lastUpdated := "t",
        sequence := [2, 3],
        accounts := [("2", ⟨"b@x.co", "ub", "t"⟩),
                     ("3", ⟨"c@x.co", "uc", "t"⟩)] }
      (by rfl)⟩

/-! ## Claim C8: the durable key-value store round-trips documents

`_write_json` serialises with `json.dumps`, writes a sibling temp file,
re-reads and re-parses it to validate, renames over the target and
restricts permissions; `_read_json` parses the file content.  We model the
store at the string level with an executable JSON printer and parser for
the `JVal` fragment and prove the round-trip.  (Python escapes control and
non-ASCII characters and pretty-prints with `indent=2`; the printer here
escapes only `"` and `\` and prints compactly — the parser skips
whitespace, so document *structure*, which is what the claim is about, is
unaffected.) -/

def lbrace : Char := Char.ofNat 123

def rbrace : Char := Char.ofNat 125

def wsChar (c : Char) : Bool :=
  c = ' ' || c = '\t' || c = '\n' || c = '\r'

def skipWs (cs : List Char) : List Char := cs.dropWhile wsChar

/-- String-body escaping (`"` and `\`). -/
def escChars : List Char → List Char
  | [] => []
  | c :: t =>
    if c = '"' then '\\' :: '"' :: escChars t
    else if c = '\\' then '\\' :: '\\' :: escChars t
    else c :: escChars t

mutual

/-- JSON printer for `JVal` (model of `json.dumps`). -/
def serVal : JVal → List Char
  | .jnull => ['n', 'u', 'l', 'l']
  | .jbool true => ['t', 'r', 'u', 'e']
  | .jbool false => ['f', 'a', 'l', 's', 'e']
  | .jnum n => (intStr n).toList
  | .jstr s => '"' :: (escChars s.toList ++ ['"'])
  | .jarr [] => ['[', ']']
  | .jarr (x :: t) => '[' :: (serList x t ++ [']'])
  | .jobj [] => [lbrace, rbrace]
  | .jobj (m :: t) => lbrace :: (serObj m t ++ [rbrace])
termination_by v => sizeOf v
decreasing_by all_goals simp_wf <;> omega

/-- Comma-separated printing of a non-empty array tail. -/
def serList : JVal → List JVal → List Char
  | x, [] => serVal x
  | x, y :: t => serVal x ++ ',' :: serList y t
termination_by x t => sizeOf x + sizeOf t
decreasing_by all_goals simp_wf <;> omega

/-- Comma-separated printing of non-empty object members. -/
def serObj : (String × JVal) → List (String × JVal) → List Char
  | (k, v), [] => '"' :: (escChars k.toList ++ '"' :: ':' :: serVal v)
  | (k, v), m :: t =>
    ('"' :: (escChars k.toList ++ '"' :: ':' :: serVal v)) ++
      ',' :: serObj m t
termination_by m t => sizeOf m + sizeOf t
decreasing_by all_goals simp_wf <;> omega

end

/-- Parse a string body up to the closing quote, undoing `escChars`. -/
def parseStringBody : List Char → Option (List Char × List Char)
  | [] => none
  | c :: rest =>
    if c = '"' then some ([], rest)
    else if c = '\\' then
      match rest with
      | [] => none
      | e :: rest2 =>
        if e = '"' ∨ e = '\\' then
          (parseStringBody rest2).map (fun p => (e :: p.1, p.2))
        else none
    else (parseStringBody rest).map (fun p => (c :: p.1, p.2))

def parseDigits (cs : List Char) : Option (Nat × List Char) :=
  let ds := cs.takeWhile isDigitChar
  if ds.isEmpty then none else some (charsToNat ds, cs.drop ds.length)

def parseNum (cs : List Char) : Option (Int × List Char) :=
  match cs with
  | [] => none
  | c :: rest =>
    if c = '-' then (parseDigits rest).map (fun p => (-(p.1 : Int), p.2))
    else (parseDigits (c :: rest)).map (fun p => ((p.1 : Int), p.2))

mutual

/-- Fueled recursive-descent JSON parser (model of `json.loads`; the fuel
is always instantiated with more than the input length, which the
round-trip proof shows is sufficient for parser outputs). -/
def parseVal : Nat → List Char → Option (JVal × List Char)
  | 0, _ => none
  | fuel + 1, cs =>
    match skipWs cs with
    | [] => none
    | c :: rest =>
      if c = 'n' then
        match rest with
        | 'u' :: 'l' :: 'l' :: r => some (.jnull, r)
        | _ => none
      else if c = 't' then
        match rest with
        | 'r' :: 'u' :: 'e' :: r => some (.jbool true, r)
        | _ => none
      else if c = 'f' then
        match rest with
        | 'a' :: 'l' :: 's' :: 'e' :: r => some (.jbool false, r)
        | _ => none
      else if c = '"' then
        (parseStringBody rest).map (fun p => (.jstr ⟨p.1⟩, p.2))
      else if c = '[' then
        match skipWs rest with
        | [] => none
        | c2 :: r2 =>
          if c2 = ']' then some (.jarr [], r2)
          else parseArrRest fuel (c2 :: r2) []
      else if c = lbrace then
        match skipWs rest with
        | [] => none
        | c2 :: r2 =>
          if c2 = rbrace then some (.jobj [], r2)
          else parseObjRest fuel (c2 :: r2) []
      else
        (parseNum (c :: rest)).map (fun p => (.jnum p.1, p.2))

def parseArrRest (fuel : Nat) (cs : List Char) (acc : List JVal) :
    Option (JVal × List Char) :=
  match fuel with
  | 0 => none
  | g + 1 =>
    match parseVal g cs with
    | none => none
    | some (v, r) =>
      match skipWs r with
      | [] => none
      | c2 :: r2 =>
        if c2 = ',' then parseArrRest g r2 (acc ++ [v])
        else if c2 = ']' then some (.jarr (acc ++ [v]), r2)
        else none

def parseObjRest (fuel : Nat) (cs : List Char)
    (acc : List (String × JVal)) : Option (JVal × List Char) :=
  match fuel with
  | 0 => none
  | g + 1 =>
    match skipWs cs with
    | [] => none
    | c :: r =>
      if c = '"' then
        match parseStringBody r with
        | none => none
        | some (kcs, r2) =>
          match skipWs r2 with
          | [] => none
          | c3 :: r3 =>
            if c3 = ':' then
              match parseVal g r3 with
              | none => none
              | some (v, r4) =>
                match skipWs r4 with
                | [] => none
                | c5 :: r5 =>
                  if c5 = ',' then parseObjRest g r5 (acc ++ [(⟨kcs⟩, v)])
                  else if c5 = rbrace then
                    some (.jobj (acc ++ [(⟨kcs⟩, v)]), r5)
                  else none
            else none
      else none

end

/-- Model of `json.loads` on a whole document string. -/
def parseJson (s : String) : Option JVal :=
  match parseVal (s.toList.length + 1) s.toList with
  | some (v, rest) => if (skipWs rest).isEmpty then some v else none
  | none => none

/-- Model of `json.dumps` on a top-level (object) document. -/
def dumps (doc : List (String × JVal)) : String := ⟨serVal (.jobj doc)⟩

/-- Model of `_write_json`: serialise, write a sibling temp file, re-parse
it to validate (aborting with `ConfigError` — `none` — on invalid output,
after unlinking the temp file), rename over the target.  The file system
is a path-keyed string store. -/
def writeJsonFS (fs : List (String × String)) (path : String)
    (doc : List (String × JVal)) : Option (List (String × String)) :=
  let content := dumps doc
  let tmp := path ++ ".tmp"
  let fs1 := assocSet fs tmp content
  match parseJson content with
  | none => none
  | some _ => some (assocSet (assocErase fs1 tmp) path content)

/-- Model of `_read_json`: `none` for a missing path or unparseable
content. -/
def readJsonFS (fs : List (String × String)) (path : String) :
    Option JVal :=
  match assocGet fs path with
  | none => none
  | some s => parseJson s

/-! ### Round-trip proof for the printer/parser pair -/

/-- The continuation after a printed value never starts with a digit. -/
def noDigitHead (cs : List Char) : Prop :=
  ∀ c cs', cs = c :: cs' → isDigitChar c = false

theorem noDigitHead_nil : noDigitHead [] := fun c cs' h => by cases h

theorem noDigitHead_cons (c : Char) (cs : List Char)
    (h : isDigitChar c = false) : noDigitHead (c :: cs) := by
  intro c' cs' he
  cases he
  exact h

theorem skipWs_cons_of_not_ws (c : Char) (cs : List Char)
    (h : wsChar c = false) : skipWs (c :: cs) = c :: cs := by
  simp [skipWs, List.dropWhile_cons, h]

theorem parseStringBody_esc (l rest : List Char) :
    parseStringBody (escChars l ++ '"' :: rest) = some (l, rest) := by
  induction l with
  | nil =>
    rw [show escChars [] ++ '"' :: rest = '"' :: rest from rfl,
      parseStringBody.eq_def]
    simp
  | cons c t ih =>
    by_cases hq : c = '"'
    · subst hq
      simp only [escChars, if_pos rfl, List.cons_append]
      rw [parseStringBody.eq_def]
      simp [ih]
    · by_cases hb : c = '\\'
      · subst hb
        simp only [escChars, if_neg (by decide : ¬ ('\\' = '"')), if_pos rfl,
          List.cons_append]
        rw [parseStringBody.eq_def]
        simp [ih]
      · simp only [escChars, if_neg hq, if_neg hb, List.cons_append]
        rw [parseStringBody.eq_def]
        simp only [if_neg hq, if_neg hb, ih]
        rfl

theorem takeWhile_digits_append (ds rest : List Char)
    (hall : ds.all isDigitChar = true) (hrest : noDigitHead rest) :
    (ds ++ rest).takeWhile isDigitChar = ds ∧
      (ds ++ rest).drop ds.length = rest := by
  induction ds with
  | nil =>
    constructor
    · cases rest with
      | nil => rfl
      | cons c cs =>
        simp [List.takeWhile_cons, hrest c cs rfl]
    · rfl
  | cons c t ih =>
    rw [List.all_cons, Bool.and_eq_true] at hall
    obtain ⟨h1, h2⟩ := ih hall.2
    constructor
    · simp [List.takeWhile_cons, hall.1, h1]
    · simpa using h2

theorem parseDigits_append (ds rest : List Char) (hne : ds ≠ [])
    (hall : ds.all isDigitChar = true) (hrest : noDigitHead rest) :
    parseDigits (ds ++ rest) = some (charsToNat ds, rest) := by
  obtain ⟨h1, h2⟩ := takeWhile_digits_append ds rest hall hrest
  simp only [parseDigits, h1]
  rw [if_neg (by simpa using hne)]
  rw [h2]

theorem parseNum_intStr (n : Int) (rest : List Char)
    (hrest : noDigitHead rest) :
    parseNum ((intStr n).toList ++ rest) = some (n, rest) := by
  by_cases hneg : n < 0
  · have hall := natToChars_all_digits n.natAbs
    have hne := natToChars_ne_nil n.natAbs
    have hval := charsToNat_natToChars n.natAbs
    have htl : (intStr n).toList = '-' :: natToChars n.natAbs := by
      simp only [intStr, if_pos hneg]
      rfl
    rw [htl]
    simp only [List.cons_append, parseNum, if_true]
    rw [parseDigits_append _ _ hne hall hrest]
    simp only [Option.map_some', hval]
    have h2 : -((n.natAbs : Int)) = n := by omega
    rw [h2]
  · have hall := natToChars_all_digits n.toNat
    have hne := natToChars_ne_nil n.toNat
    have hval := charsToNat_natToChars n.toNat
    have htl : (intStr n).toList = natToChars n.toNat := by
      simp only [intStr, if_neg hneg]
      rfl
    rw [htl]
    match hcs : natToChars n.toNat with
    | [] => exact absurd hcs hne
    | c :: t =>
      rw [hcs] at hall hval
      have hcd : isDigitChar c = true := by
        rw [List.all_cons, Bool.and_eq_true] at hall
        exact hall.1
      have hcdash : ¬ (c = '-') := by
        intro he
        rw [he] at hcd
        exact absurd hcd (by decide)
      simp only [List.cons_append, parseNum, if_neg hcdash]
      rw [show c :: (t ++ rest) = (c :: t) ++ rest from rfl]
      rw [parseDigits_append _ _ (by simp) hall hrest]
      simp only [Option.map_some', hval]
      have h2 : ((n.toNat : Int)) = n := by omega
      rw [h2]

theorem digit_or_dash_not_special (c : Char)
    (h : c = '-' ∨ isDigitChar c = true) :
    wsChar c = false ∧ ¬(c = 'n') ∧ ¬(c = 't') ∧ ¬(c = 'f') ∧
      ¬(c = '"') ∧ ¬(c = '[') ∧ ¬(c = lbrace) ∧ ¬(c = ']') := by
  rcases h with h | h
  · subst h
    refine ⟨by decide, by decide, by decide, by decide, by decide,
      by decide, ?_, by decide⟩
    intro he
    exact absurd (congrArg Char.toNat he) (by decide)
  · refine ⟨?_, ?_, ?_, ?_, ?_, ?_, ?_, ?_⟩
    · by_contra hw
      rw [Bool.not_eq_false] at hw
      simp only [wsChar, Bool.or_eq_true, decide_eq_true_eq] at hw
      rcases hw with ((h1 | h1) | h1) | h1 <;>
        first
        | (rw [h1] at h; exact absurd h (by decide))
        | (exact absurd h (by decide))
    all_goals
      intro he
      rw [he] at h
      revert h
      decide

theorem intStr_head (n : Int) :
    ∃ c cs, (intStr n).toList = c :: cs ∧
      (c = '-' ∨ isDigitChar c = true) := by
  by_cases hneg : n < 0
  · refine ⟨'-', natToChars n.natAbs, ?_, Or.inl rfl⟩
    simp only [intStr, if_pos hneg]
    rfl
  · have hne := natToChars_ne_nil n.toNat
    have hall := natToChars_all_digits n.toNat
    match hcs : natToChars n.toNat with
    | [] => exact absurd hcs hne
    | c :: cs =>
      rw [hcs, List.all_cons, Bool.and_eq_true] at hall
      refine ⟨c, cs, ?_, Or.inr hall.1⟩
      simp only [intStr, if_neg hneg, hcs]
      rfl

/-- The first character of any printed value is not whitespace and is not a
closing bracket. -/
theorem serVal_head (v : JVal) :
    ∃ c cs, serVal v = c :: cs ∧ wsChar c = false ∧ ¬(c = ']') := by
  cases v with
  | jnull =>
    exact ⟨'n', ['u', 'l', 'l'], by simp [serVal], by decide, by decide⟩
  | jbool b =>
    cases b with
    | true =>
      exact ⟨'t', ['r', 'u', 'e'], by simp [serVal], by decide, by decide⟩
    | false =>
      exact ⟨'f', ['a', 'l', 's', 'e'], by simp [serVal], by decide,
        by decide⟩
  | jnum n =>
    obtain ⟨c, cs, hcs, hc⟩ := intStr_head n
    obtain ⟨hws, _, _, _, _, _, _, hbr⟩ := digit_or_dash_not_special c hc
    refine ⟨c, cs, ?_, hws, hbr⟩
    simp only [serVal]
    exact hcs
  | jstr s =>
    exact ⟨'"', escChars s.toList ++ ['"'], by simp [serVal], by decide,
      by decide⟩
  | jarr xs =>
    cases xs with
    | nil => exact ⟨'[', [']'], by simp [serVal], by decide, by decide⟩
    | cons x t =>
      exact ⟨'[', serList x t ++ [']'], by simp [serVal], by decide,
        by decide⟩
  | jobj ms =>
    cases ms with
    | nil =>
      refine ⟨lbrace, [rbrace], by simp [serVal], by decide, ?_⟩
      intro he
      exact absurd (congrArg Char.toNat he) (by decide)
    | cons m t =>
      refine ⟨lbrace, serObj m t ++ [rbrace], by simp [serVal], by decide,
        ?_⟩
      intro he
      exact absurd (congrArg Char.toNat he) (by decide)

theorem serList_head (x : JVal) (t : List JVal) :
    ∃ c cs, serList x t = c :: cs ∧ wsChar c = false ∧ ¬(c = ']') := by
  obtain ⟨c, cs, hcs, hws, hbr⟩ := serVal_head x
  cases t with
  | nil => exact ⟨c, cs, by simp [serList, hcs], hws, hbr⟩
  | cons y t2 =>
    exact ⟨c, cs ++ ',' :: serList y t2, by simp [serList, hcs], hws, hbr⟩

theorem serObj_head (m : String × JVal) (t : List (String × JVal)) :
    ∃ cs, serObj m t = '"' :: cs := by
  obtain ⟨k, v⟩ := m
  cases t with
  | nil => exact ⟨escChars k.toList ++ '"' :: ':' :: serVal v,
      by simp [serObj]⟩
  | cons m2 t2 =>
    exact ⟨escChars k.toList ++ '"' :: ':' :: (serVal v ++ ',' :: serObj m2 t2),
      by simp [serObj]⟩

/-- Dispatch of the parser on a leading quote. -/
theorem parseVal_succ_quote (h : Nat) (cs : List Char) :
    parseVal (h + 1) ('"' :: cs)
      = (parseStringBody cs).map (fun p => (.jstr ⟨p.1⟩, p.2)) := by
  simp [parseVal, skipWs, List.dropWhile_cons, wsChar]

/-- Dispatch of the parser on a leading `[`. -/
theorem parseVal_succ_bracket (h : Nat) (cs : List Char) :
    parseVal (h + 1) ('[' :: cs)
      = (match skipWs cs with
         | [] => none
         | c2 :: r2 =>
           if c2 = ']' then some (.jarr [], r2)
           else parseArrRest h (c2 :: r2) []) := by
  simp [parseVal, skipWs, List.dropWhile_cons, wsChar]

/-- Dispatch of the parser on a leading `{`. -/
theorem parseVal_succ_lbrace (h : Nat) (cs : List Char) :
    parseVal (h + 1) (lbrace :: cs)
      = (match skipWs cs with
         | [] => none
         | c2 :: r2 =>
           if c2 = rbrace then some (.jobj [], r2)
           else parseObjRest h (c2 :: r2) []) := by
  simp only [parseVal]
  rw [skipWs_cons_of_not_ws _ _ (by decide)]
  simp only [if_neg (by decide : ¬ (lbrace = 'n')),
    if_neg (by decide : ¬ (lbrace = 't')),
    if_neg (by decide : ¬ (lbrace = 'f')),
    if_neg (by decide : ¬ (lbrace = '"')),
    if_neg (by decide : ¬ (lbrace = '[')), if_pos rfl, if_true]

/-- Main round-trip lemma: with enough fuel, the parser consumes exactly a
printed value (or a printed non-empty array tail / member list) and
returns it. -/
theorem parse_ser (g : Nat) :
    (∀ v rest, (serVal v).length < g → noDigitHead rest →
      parseVal g (serVal v ++ rest) = some (v, rest)) ∧
    (∀ x t rest acc, (serList x t).length + 1 < g →
      parseArrRest g (serList x t ++ ']' :: rest) acc
        = some (.jarr (acc ++ x :: t), rest)) ∧
    (∀ m t rest acc, (serObj m t).length + 1 < g →
      parseObjRest g (serObj m t ++ rbrace :: rest) acc
        = some (.jobj (acc ++ m :: t), rest)) := by
  induction g using Nat.strong_induction_on with
  | _ g ih =>
    cases g with
    | zero =>
      refine ⟨fun v rest hlen _ => ?_, fun x t rest acc hlen => ?_,
        fun m t rest acc hlen => ?_⟩ <;> omega
    | succ h =>
      refine ⟨?_, ?_, ?_⟩
      · -- parseVal on a printed value
        intro v rest hlen hrest
        cases v with
        | jnull =>
          simp [serVal, parseVal, skipWs, List.dropWhile_cons, wsChar]
        | jbool b =>
          cases b <;>
            simp [serVal, parseVal, skipWs, List.dropWhile_cons, wsChar]
        | jnum n =>
          obtain ⟨c, cs, hcs, hc⟩ := intStr_head n
          obtain ⟨hws, hn, ht, hf, hq, hbk, hlb, _⟩ :=
            digit_or_dash_not_special c hc
          have hser : serVal (.jnum n) = c :: cs := by
            simp only [serVal]
            exact hcs
          rw [hser, List.cons_append]
          simp only [parseVal]
          rw [skipWs_cons_of_not_ws _ _ hws]
          simp only [if_neg hn, if_neg ht, if_neg hf, if_neg hq,
            if_neg hbk, if_neg hlb]
          rw [show c :: (cs ++ rest) = (c :: cs) ++ rest from rfl, ← hcs,
            parseNum_intStr n rest hrest]
          rfl
        | jstr s =>
          have hser : serVal (.jstr s) ++ rest
              = '"' :: (escChars s.toList ++ '"' :: rest) := by
            simp [serVal]
          rw [hser, parseVal_succ_quote, parseStringBody_esc]
          rfl
        | jarr xs =>
          cases xs with
          | nil =>
            simp [serVal, parseVal, skipWs, List.dropWhile_cons, wsChar]
          | cons x t =>
            have hser : serVal (.jarr (x :: t)) ++ rest
                = '[' :: (serList x t ++ ']' :: rest) := by
              simp [serVal]
            rw [hser, parseVal_succ_bracket]
            obtain ⟨c, cs, hlcs, hws, hbr⟩ := serList_head x t
            have hskip : skipWs (serList x t ++ ']' :: rest)
                = c :: (cs ++ ']' :: rest) := by
              rw [hlcs, List.cons_append, skipWs_cons_of_not_ws _ _ hws]
            rw [hskip]
            simp only [if_neg hbr]
            rw [show c :: (cs ++ ']' :: rest)
                = (c :: cs) ++ ']' :: rest from rfl, ← hlcs]
            have hbound : (serList x t).length + 1 < h := by
              have h2 : (serVal (.jarr (x :: t))).length
                  = (serList x t).length + 2 := by
                simp [serVal]
              omega
            rw [(ih h (by omega)).2.1 x t rest [] hbound]
            simp
        | jobj ms =>
          cases ms with
          | nil =>
            have hser : serVal (.jobj []) ++ rest
                = lbrace :: (rbrace :: rest) := by
              simp [serVal]
            rw [hser, parseVal_succ_lbrace,
              skipWs_cons_of_not_ws _ _ (by decide)]
            simp only [if_pos rfl, if_true]
          | cons m t =>
            have hser : serVal (.jobj (m :: t)) ++ rest
                = lbrace :: (serObj m t ++ rbrace :: rest) := by
              simp [serVal]
            rw [hser, parseVal_succ_lbrace]
            obtain ⟨cs, hocs⟩ := serObj_head m t
            have hskip : skipWs (serObj m t ++ rbrace :: rest)
                = '"' :: (cs ++ rbrace :: rest) := by
              rw [hocs, List.cons_append,
                skipWs_cons_of_not_ws _ _ (by decide)]
            rw [hskip]
            simp only [if_neg (by decide : ¬ (('"' : Char) = rbrace))]
            rw [show '"' :: (cs ++ rbrace :: rest)
                = ('"' :: cs) ++ rbrace :: rest from rfl, ← hocs]
            have hbound : (serObj m t).length + 1 < h := by
              have h2 : (serVal (.jobj (m :: t))).length
                  = (serObj m t).length + 2 := by
                simp [serVal]
              omega
            rw [(ih h (by omega)).2.2 m t rest [] hbound]
            simp
      · -- parseArrRest on a printed tail
        intro x t rest acc hlen
        cases t with
        | nil =>
          simp only [serList] at hlen ⊢
          simp only [parseArrRest]
          rw [(ih h (by omega)).1 x (']' :: rest) (by omega)
            (noDigitHead_cons _ _ (by decide))]
          simp only []
          rw [skipWs_cons_of_not_ws _ _ (by decide)]
          simp only [if_neg (by decide : ¬ ((']' : Char) = ',')),
            if_pos rfl, if_true]
        | cons y t2 =>
          have hser : serList x (y :: t2) ++ ']' :: rest
              = serVal x ++ (',' :: (serList y t2 ++ ']' :: rest)) := by
            simp [serList]
          have hlens : (serList x (y :: t2)).length
              = (serVal x).length + 1 + (serList y t2).length := by
            simp [serList]
            omega
          rw [hser]
          simp only [parseArrRest]
          rw [(ih h (by omega)).1 x _ (by omega)
            (noDigitHead_cons _ _ (by decide))]
          simp only []
          rw [skipWs_cons_of_not_ws _ _ (by decide)]
          simp only [if_pos rfl, if_true]
          rw [(ih h (by omega)).2.1 y t2 rest (acc ++ [x]) (by omega)]
          simp
      · -- parseObjRest on printed members
        intro m t rest acc hlen
        obtain ⟨k, v⟩ := m
        cases t with
        | nil =>
          have hser : serObj (k, v) [] ++ rbrace :: rest
              = '"' :: (escChars k.toList ++ '"' ::
                (':' :: (serVal v ++ rbrace :: rest))) := by
            simp [serObj]
          have hlens : (serObj (k, v) []).length
              = (escChars k.toList).length + 3 + (serVal v).length := by
            simp [serObj]
            omega
          rw [hser]
          simp only [parseObjRest]
          rw [skipWs_cons_of_not_ws _ _ (by decide)]
          simp only [if_pos rfl, if_true]
          rw [parseStringBody_esc]
          simp only []
          rw [skipWs_cons_of_not_ws _ _ (by decide)]
          simp only [if_pos rfl, if_true]
          rw [(ih h (by omega)).1 v (rbrace :: rest) (by omega)
            (noDigitHead_cons _ _ (by decide))]
          simp only []
          rw [skipWs_cons_of_not_ws _ _ (by decide)]
          simp only [if_neg (by decide : ¬ (rbrace = ',')), if_pos rfl,
            if_true]
          rfl
        | cons m2 t2 =>
          have hser : serObj (k, v) (m2 :: t2) ++ rbrace :: rest
              = '"' :: (escChars k.toList ++ '"' ::
                (':' :: (serVal v ++
                  (',' :: (serObj m2 t2 ++ rbrace :: rest))))) := by
            simp [serObj]
          have hlens : (serObj (k, v) (m2 :: t2)).length
              = (escChars k.toList).length + 4 + (serVal v).length
                + (serObj m2 t2).length := by
            simp [serObj]
            omega
          rw [hser]
          simp only [parseObjRest]
          rw [skipWs_cons_of_not_ws _ _ (by decide)]
          simp only [if_pos rfl, if_true]
          rw [parseStringBody_esc]
          simp only []
          rw [skipWs_cons_of_not_ws _ _ (by decide)]
          simp only [if_pos rfl, if_true]
          rw [(ih h (by omega)).1 v _ (by omega)
            (noDigitHead_cons _ _ (by decide))]
          simp only []
          rw [skipWs_cons_of_not_ws _ _ (by decide)]
          simp only [if_pos rfl, if_true]
          rw [show (⟨k.toList⟩ : String) = k from rfl]
          rw [(ih h (by omega)).2.2 m2 t2 rest (acc ++ [(k, v)])
            (by omega)]
          simp

theorem parseJson_dumps (doc : List (String × JVal)) :
    parseJson (dumps doc) = some (.jobj doc) := by
  have hmain := (parse_ser ((serVal (.jobj doc)).length + 1)).1 (.jobj doc)
    [] (by omega) noDigitHead_nil
  rw [List.append_nil] at hmain
  simp only [parseJson, dumps, toList_mk, hmain]
  simp [skipWs]

/-- C8: writing any JSON-serializable registry document through the
durable key-value store (`_write_json`: serialise, temp-write, validate by
re-parsing, rename) and reading it back (`_read_json`: parse) yields an
identical structure — write followed by read is the identity on
documents. -/
theorem c8_write_then_read_roundtrip (fs : List (String × String))
    (path : String) (doc : List (String × JVal)) :
    ∃ fs', writeJsonFS fs path doc = some fs' ∧
      readJsonFS fs' path = some (.jobj doc) := by
  refine ⟨assocSet (assocErase (assocSet fs (path ++ ".tmp") (dumps doc))
    (path ++ ".tmp")) path (dumps doc), ?_, ?_⟩
  · simp only [writeJsonFS, parseJson_dumps]
  · simp only [readJsonFS, assocGet_assocSet_same, parseJson_dumps]

end ClaudeSwap
